import Mathlib

/-!
Shallow embedding of the GTFS-RT reconciliation engine of the t2c-now
repository: the trip-identifier normalizer, feed-cache builder, closest-update
locator and poller state machine of `apps/api/src/rt/rtClient.ts`, and the
departure estimator of the `/:stopId/next` route in
`apps/api/src/routes/stops.ts`.

Modeling conventions:
* JavaScript strings are `List Char`; JavaScript numbers that hold integral
  epoch seconds, seconds-since-midnight or signed delays are `Int`.
* A JavaScript `Map` is an association list `List (κ × α)`: `set` prepends a
  binding and `get` (`aGet`) returns the most recently written binding, which
  reproduces the observable get/set behaviour including last-write-wins.
* `Math.floor(x / y)` on integral operands is euclidean division `/` on `Int`;
  `Math.round(n / d)` for integral `n` and positive `d` is `roundDiv`.
* The JavaScript `while` loop of the binary search and the recursive decimal
  rendering of a number are modeled with an explicit iteration budget (`fuel`)
  so that every definition is structurally recursive and kernel-evaluable;
  the correctness lemmas prove that the budget the callers pass is never
  exhausted before the loop condition fails.
* `new Date(e * 1000)` followed by `getHours/getMinutes/getSeconds` is modeled,
  for a fixed local-timezone offset, as `(e - midnightEpoch) % 86400` where
  `midnightEpoch` is the epoch second of the most recent local midnight
  (the `todayStart.setHours(0,0,0,0)` value used by the same route handler).
-/

/-- Lookup in an association list modelling `Map.prototype.get`: the first
(most recently written) binding wins. -/
def aGet {κ α : Type} [DecidableEq κ] (m : List (κ × α)) (k : κ) : Option α :=
  (m.find? fun p => decide (p.1 = k)).map Prod.snd

/-- Models `Math.round(n / d)` for an integer `n` and a positive integer `d`:
`Math.round x = ⌊x + 1/2⌋`, and `⌊n/d + 1/2⌋ = ⌊(2n+d)/(2d)⌋`. -/
def roundDiv (n : Int) (d : Int) : Int :=
  (2 * n + d) / (2 * d)

/-! ## Trip-identifier normalizer (`rtClient.ts` lines 160–211) -/

/-- Models `tripId.indexOf('_')`: `none` when the underscore is absent
(JavaScript `-1`), otherwise the index of the first occurrence. -/
def firstUnderscoreIdx : List Char → Option Nat
  | [] => none
  | c :: rest =>
    if c = '_' then some 0 else (firstUnderscoreIdx rest).map (· + 1)

/-- Embeds `normalizeTripId`: strip everything up to and including the first
underscore (`tripId.substring(firstUnderscore + 1)`), or return the input
unchanged when no underscore is present. -/
def normalizeTripId (tripId : List Char) : List Char :=
  match firstUnderscoreIdx tripId with
  | none => tripId
  | some i => tripId.drop (i + 1)

/-- Splitting a string at `'_'` separators, keeping empty fields (the exact
field decomposition that the anchored regular expression
`^\d+_(\d+)_([^_]+)_[^_]+_(\d{6})$` of `parseTripIdComponents` constrains:
no atom of that pattern can match an underscore, so the regex matches exactly
when this split yields five fields of the required shapes). -/
def splitUnderscore : List Char → List (List Char)
  | [] => [[]]
  | c :: rest =>
    if c = '_' then [] :: splitUnderscore rest
    else
      match splitUnderscore rest with
      | s :: ss => (c :: s) :: ss
      | [] => [[c]]

/-- Value of a decimal digit character, as `parseInt` computes it. -/
def digitVal (c : Char) : Nat := c.toNat - 48

/-- Embeds the `HHMMSS` decoding of `parseTripIdComponents`:
`parseInt(time.substring(0,2)) * 3600 + parseInt(time.substring(2,4)) * 60 +
parseInt(time.substring(4,6))` for a six-digit field. -/
def hhmmssToSeconds (t : List Char) : Nat :=
  (10 * digitVal (t.getD 0 '0') + digitVal (t.getD 1 '0')) * 3600 +
    (10 * digitVal (t.getD 2 '0') + digitVal (t.getD 3 '0')) * 60 +
    (10 * digitVal (t.getD 4 '0') + digitVal (t.getD 5 '0'))

/-- Result of `parseTripIdComponents`. -/
structure TripIdComponents where
  serviceCode : List Char
  line : List Char
  time : List Char
  timeSeconds : Nat
deriving DecidableEq, Repr

/-- Embeds `parseTripIdComponents`: the trip id must consist of exactly five
underscore-separated fields — digits, digits (captured as `serviceCode`),
non-empty underscore-free (captured as `line`), non-empty underscore-free,
and a six-digit time (captured as `time`) — otherwise `null`. -/
def parseTripIdComponents (tripId : List Char) : Option TripIdComponents :=
  match splitUnderscore tripId with
  | [p, s, l, v, t] =>
    if p ≠ [] ∧ p.all Char.isDigit ∧ s ≠ [] ∧ s.all Char.isDigit ∧
        l ≠ [] ∧ v ≠ [] ∧ t.length = 6 ∧ t.all Char.isDigit then
      some ⟨s, l, t, hhmmssToSeconds t⟩
    else none
  | _ => none

/-- The decimal digit character for `d < 10`. -/
def digitChar (d : Nat) : Char := Char.ofNat (48 + d)

/-- Decimal rendering of a natural number, with an explicit recursion budget
(most-significant digit first, as JavaScript renders an integral number in a
template literal). -/
def natDigitsAux : Nat → Nat → List Char
  | 0, _ => []
  | fuel + 1, n =>
    if n < 10 then [digitChar n]
    else natDigitsAux fuel (n / 10) ++ [digitChar (n % 10)]

/-- Decimal rendering of a natural number (`fuel = n + 1` always suffices
because the number of decimal digits of `n` is at most `n + 1`). -/
def natDigits (n : Nat) : List Char := natDigitsAux (n + 1) n

/-- Decimal rendering of an integer, as a template literal renders an
integral JavaScript number. -/
def intDigits (i : Int) : List Char :=
  if i < 0 then '-' :: natDigits (-i).toNat else natDigits i.toNat

/-- Embeds `createFuzzyKey`: `serviceCode_line_timeWindow` where
`timeWindow = Math.floor(timeSeconds / 300) * 300`, or `null` when the trip id
has no parsed components. -/
def createFuzzyKey (tripId : List Char) : Option (List Char) :=
  match parseTripIdComponents tripId with
  | none => none
  | some components =>
    let timeWindow := components.timeSeconds / 300 * 300
    some (components.serviceCode ++ '_' :: (components.line ++ '_' :: natDigits timeWindow))

/-- Embeds `createRouteStopKey`: `routeId_stopId`. -/
def createRouteStopKey (routeId stopId : List Char) : List Char :=
  routeId ++ '_' :: stopId

/-- Embeds `createRouteStopTimeKey`: `routeId_stopId_timeWindow` with
`timeWindow = Math.floor(timeSeconds / 300) * 300`. -/
def createRouteStopTimeKey (routeId stopId : List Char) (timeSeconds : Int) : List Char :=
  let timeWindow := timeSeconds / 300 * 300
  routeId ++ '_' :: (stopId ++ '_' :: intDigits timeWindow)

/-! ## Cache data model (`rtClient.ts` lines 27–75) -/

/-- Embeds the `StopTimeUpdate` interface: optional absolute epoch times and
optional delays for arrival and departure. -/
structure StopTimeUpdate where
  arrivalTime : Option Int := none
  arrivalDelay : Option Int := none
  departureTime : Option Int := none
  departureDelay : Option Int := none
deriving DecidableEq, Repr

instance : Inhabited StopTimeUpdate := ⟨{}⟩

/-- Embeds `StopTimeUpdateWithEpoch`: a stop-time update together with the
departure epoch used for sorting and searching. -/
structure StopTimeUpdateWithEpoch extends StopTimeUpdate where
  departureEpoch : Int
deriving DecidableEq, Repr

instance : Inhabited StopTimeUpdateWithEpoch := ⟨{ departureEpoch := 0 }⟩

/-- Embeds `TripUpdateIndex`: one indexed trip update. -/
structure TripUpdateIndex where
  tripId : List Char
  routeId : Option (List Char) := none
  directionId : Option Nat := none
  delay : Option Int := none
  stopTimesByStopId : List (List Char × StopTimeUpdate) := []
  stopTimesBySequence : List (Nat × StopTimeUpdate) := []
deriving DecidableEq, Repr

/-- Embeds `RtCache`. -/
structure RtCache where
  fetchedAt : Int
  entityCount : Nat
  tripUpdatesCount : Nat
  data : List (List Char × TripUpdateIndex)
  dataByNormalizedId : List (List Char × TripUpdateIndex)
  dataByFuzzyKey : List (List Char × TripUpdateIndex)
  dataByRouteStopTime : List (List Char × StopTimeUpdate)
  dataByRouteStop : List (List Char × List StopTimeUpdateWithEpoch)
deriving DecidableEq, Repr

/-! ## Closest-update locator (`rtClient.ts` lines 95–158) -/

/-- One candidate comparison of `findClosestRtUpdate`: models
`if (delta < closestDelta) { closestDelta = delta; closest = u }`, where the
initial `closest = null, closestDelta = Infinity` state is `none`. -/
def considerCandidate (targetEpoch : Int) (u : StopTimeUpdateWithEpoch)
    (best : Option (StopTimeUpdateWithEpoch × Int)) :
    Option (StopTimeUpdateWithEpoch × Int) :=
  let delta := |u.departureEpoch - targetEpoch|
  match best with
  | none => some (u, delta)
  | some (v, d) => if delta < d then some (u, delta) else some (v, d)

/-- The binary-search `while (left <= right)` loop of `findClosestRtUpdate`,
with an explicit iteration budget. Returns the final `left` and the tracked
closest candidate with its delta. `mid = Math.floor((left + right) / 2)` is
euclidean division. Out-of-range reads (which the caller's invariant rules
out) default to the inhabited stop-time update. -/
def bsLoop (updates : List StopTimeUpdateWithEpoch) (targetEpoch : Int) :
    Nat → Int → Int → Option (StopTimeUpdateWithEpoch × Int) →
    Int × Option (StopTimeUpdateWithEpoch × Int)
  | 0, left, _, best => (left, best)
  | fuel + 1, left, right, best =>
    if left ≤ right then
      let mid := (left + right) / 2
      let u := updates.getD mid.toNat default
      let best' := considerCandidate targetEpoch u best
      if u.departureEpoch < targetEpoch then
        bsLoop updates targetEpoch fuel (mid + 1) right best'
      else
        bsLoop updates targetEpoch fuel left (mid - 1) best'
    else (left, best)

/-- Embeds `findClosestRtUpdate`: look up the `(route, stop)` ordered list,
binary-search for the insertion point of `targetEpoch` while tracking the
closest visited update, compare the `left` and `left - 1` neighbors, and
return the closest update only when its delta is within `maxDeltaSeconds`. -/
def findClosestRtUpdate (cache : RtCache) (routeId stopId : List Char)
    (targetEpoch : Int) (maxDeltaSeconds : Int) : Option StopTimeUpdate :=
  match aGet cache.dataByRouteStop (createRouteStopKey routeId stopId) with
  | none => none
  | some updates =>
    if updates.length = 0 then none
    else
      let r := bsLoop updates targetEpoch updates.length 0 ((updates.length : Int) - 1) none
      let left := r.1
      let best1 :=
        if left < (updates.length : Int) then
          considerCandidate targetEpoch (updates.getD left.toNat default) r.2
        else r.2
      let best2 :=
        if 0 < left then
          considerCandidate targetEpoch (updates.getD (left - 1).toNat default) best1
        else best1
      match best2 with
      | some (u, d) => if d ≤ maxDeltaSeconds then some u.toStopTimeUpdate else none
      | none => none

/-! ## Decoded feed model and cache builder (`rtClient.ts` lines 284–414) -/

/-- An arrival or departure event of a decoded `stopTimeUpdate`: optional
absolute epoch time (64-bit `Long` already converted to a number) and
optional delay in seconds. -/
structure RtEvent where
  time : Option Int := none
  delay : Option Int := none
deriving DecidableEq, Repr

/-- A decoded `stopTimeUpdate` entry. -/
structure FeedStu where
  stopId : Option (List Char) := none
  stopSequence : Option Nat := none
  arrival : Option RtEvent := none
  departure : Option RtEvent := none
deriving DecidableEq, Repr

/-- A decoded trip descriptor. -/
structure FeedTrip where
  tripId : Option (List Char) := none
  routeId : Option (List Char) := none
  directionId : Option Nat := none
deriving DecidableEq, Repr

/-- A decoded `tripUpdate`. -/
structure FeedTripUpdate where
  trip : Option FeedTrip := none
  delay : Option Int := none
  stopTimeUpdate : Option (List FeedStu) := none
deriving DecidableEq, Repr

/-- A decoded feed entity (only the `tripUpdate` branch matters here). -/
structure FeedEntity where
  tripUpdate : Option FeedTripUpdate := none
deriving DecidableEq, Repr

/-- The per-stop-time-update record the builder constructs (`const update =
{}` populated from non-null arrival/departure fields). -/
def stuToUpdate (stu : FeedStu) : StopTimeUpdate :=
  { arrivalTime := stu.arrival.bind (·.time)
    arrivalDelay := stu.arrival.bind (·.delay)
    departureTime := stu.departure.bind (·.time)
    departureDelay := stu.departure.bind (·.delay) }

/-- The `tripUpdate.trip?.tripId` guard: the entity is skipped when the trip
id is absent or the empty string (both falsy in `if (!tripId) continue`). -/
def tripUpdateId (tu : FeedTripUpdate) : Option (List Char) :=
  match tu.trip.bind (·.tripId) with
  | some tid => if tid = [] then none else some tid
  | none => none

/-- The `index.stopTimesByStopId` map: insert each update whose `stopId` is
truthy (present and non-empty). The source's single loop over
`tripUpdate.stopTimeUpdate` updates four mutually independent accumulators;
it is split here into one fold per accumulator. -/
def buildStopTimesByStopId (stus : List FeedStu) : List (List Char × StopTimeUpdate) :=
  stus.foldl
    (fun m stu =>
      match stu.stopId with
      | some sid => if sid ≠ [] then (sid, stuToUpdate stu) :: m else m
      | none => m)
    []

/-- The `index.stopTimesBySequence` map: insert each update whose
`stopSequence` is non-null (a zero sequence is kept). -/
def buildStopTimesBySequence (stus : List FeedStu) : List (Nat × StopTimeUpdate) :=
  stus.foldl
    (fun m stu =>
      match stu.stopSequence with
      | some seq => (seq, stuToUpdate stu) :: m
      | none => m)
    []

/-- The `TripUpdateIndex` the builder constructs for one entity. -/
def buildIndex (tid : List Char) (tu : FeedTripUpdate) : TripUpdateIndex :=
  { tripId := tid
    routeId := tu.trip.bind (·.routeId)
    directionId := tu.trip.bind (·.directionId)
    delay := tu.delay
    stopTimesByStopId := buildStopTimesByStopId (tu.stopTimeUpdate.getD [])
    stopTimesBySequence := buildStopTimesBySequence (tu.stopTimeUpdate.getD []) }

/-- One step of the fold that fills `dataByRouteStopTime` and
`dataByRouteStop` for a stop-time update: both are written only when the
stop id and the trip's route id are truthy and the update carries an
absolute departure time; the `(route, stop)` list is extended at the end
(`existing.push(...)`). -/
def insertStuGlobals (routeId : Option (List Char)) (stu : FeedStu)
    (st : List (List Char × StopTimeUpdate) × List (List Char × List StopTimeUpdateWithEpoch)) :
    List (List Char × StopTimeUpdate) × List (List Char × List StopTimeUpdateWithEpoch) :=
  match stu.stopId with
  | some sid =>
    if sid ≠ [] then
      match routeId, (stuToUpdate stu).departureTime with
      | some rid, some dt =>
        if rid ≠ [] then
          let rst := (createRouteStopTimeKey rid sid dt, stuToUpdate stu) :: st.1
          let routeStopKey := createRouteStopKey rid sid
          let existing := (aGet st.2 routeStopKey).getD []
          let rs := (routeStopKey, existing ++ [{ stuToUpdate stu with departureEpoch := dt }]) :: st.2
          (rst, rs)
        else st
      | _, _ => st
    else st
  | none => st

/-- Mutable builder state threaded over the entities. -/
structure BuildState where
  data : List (List Char × TripUpdateIndex) := []
  byNorm : List (List Char × TripUpdateIndex) := []
  byFuzzy : List (List Char × TripUpdateIndex) := []
  byRST : List (List Char × StopTimeUpdate) := []
  byRS : List (List Char × List StopTimeUpdateWithEpoch) := []
  count : Nat := 0
deriving DecidableEq, Repr

/-- Processing of one feed entity (`for (const entity of feed.entity)` body):
entities without a trip update or with a falsy trip id are skipped; otherwise
the trip-update counter is bumped, the global stop-time maps are extended,
and the freshly built index is written under the raw id, the normalized id
and (when defined) the fuzzy key. -/
def insertEntity (st : BuildState) (ent : FeedEntity) : BuildState :=
  match ent.tripUpdate with
  | none => st
  | some tu =>
    match tripUpdateId tu with
    | none => st
    | some tid =>
      let index := buildIndex tid tu
      let globals := (tu.stopTimeUpdate.getD []).foldl
        (fun acc stu => insertStuGlobals (tu.trip.bind (·.routeId)) stu acc)
        (st.byRST, st.byRS)
      { data := (tid, index) :: st.data
        byNorm := (normalizeTripId tid, index) :: st.byNorm
        byFuzzy :=
          match createFuzzyKey tid with
          | some fuzzyKey => (fuzzyKey, index) :: st.byFuzzy
          | none => st.byFuzzy
        byRST := globals.1
        byRS := globals.2
        count := st.count + 1 }

/-- Stable ascending insertion into a list sorted by departure epoch. -/
def insertByEpoch (u : StopTimeUpdateWithEpoch) :
    List StopTimeUpdateWithEpoch → List StopTimeUpdateWithEpoch
  | [] => [u]
  | v :: vs =>
    if u.departureEpoch ≤ v.departureEpoch then u :: v :: vs
    else v :: insertByEpoch u vs

/-- Models `updates.sort((a, b) => a.departureEpoch - b.departureEpoch)`:
an ascending sort by departure epoch (the relative order of equal epochs is
irrelevant to every property below). -/
def sortByEpoch (l : List StopTimeUpdateWithEpoch) : List StopTimeUpdateWithEpoch :=
  l.foldr insertByEpoch []

/-- Embeds the index-building phase of `fetchRtFeed` (steps that run after a
successful decode): fold the entities into the builder state, sort each
`(route, stop)` list by departure epoch, and assemble the cache snapshot. -/
def buildCache (now : Int) (entities : List FeedEntity) : RtCache :=
  let st := entities.foldl insertEntity {}
  { fetchedAt := now
    entityCount := entities.length
    tripUpdatesCount := st.count
    data := st.data
    dataByNormalizedId := st.byNorm
    dataByFuzzyKey := st.byFuzzy
    dataByRouteStopTime := st.byRST
    dataByRouteStop := st.byRS.map fun p => (p.1, sortByEpoch p.2) }

/-! ## Poller state machine and status surface (`rtClient.ts` lines 228–498) -/

/-- The module-level mutable state: the published cache and the last error. -/
structure RtState where
  rtCache : Option RtCache := none
  lastError : Option (List Char) := none
deriving DecidableEq, Repr

/-- Outcome of one `fetchRtFeed` tick, abstracting the fallible I/O:
`noBuffer` models `loadRtBuffer` returning `null`; `failure msg` models an
exception raised anywhere inside the `try` block (fetch, decode or index
construction) with the recorded message; `success` models a decoded feed
reaching the index-construction phase and completing it. -/
inductive FetchOutcome where
  | noBuffer : FetchOutcome
  | failure : List Char → FetchOutcome
  | success : List FeedEntity → FetchOutcome
deriving DecidableEq, Repr

/-- Embeds `fetchRtFeed` as a transition on the module state: without a
configured source nothing happens; an exception only records the error
message (the previous cache is kept); a completed rebuild publishes the new
snapshot wholesale and clears the error. -/
def fetchRtFeed (sourceConfigured : Bool) (now : Int) (st : RtState)
    (outcome : FetchOutcome) : RtState :=
  if sourceConfigured = false then st
  else
    match outcome with
    | .noBuffer => st
    | .failure msg => { st with lastError := some msg }
    | .success entities => { rtCache := some (buildCache now entities), lastError := none }

/-- Embeds `getRtCache`. -/
def getRtCache (st : RtState) : Option RtCache := st.rtCache

/-- The fields of `getRtStatus` relevant here. `lastError` is spread into the
response through `...(lastError && { lastError })`, so it is present exactly
when the recorded message is truthy (set and non-empty). -/
structure RtStatus where
  enabled : Bool
  lastError : Option (List Char)
  fetchedAt : Option Int
  entityCount : Option Nat
  tripUpdatesCount : Option Nat
deriving DecidableEq, Repr

/-- Embeds `getRtStatus`. -/
def getRtStatus (sourceConfigured : Bool) (st : RtState) : RtStatus :=
  if sourceConfigured = false then
    { enabled := false, lastError := none, fetchedAt := none
      entityCount := none, tripUpdatesCount := none }
  else
    let le : Option (List Char) :=
      match st.lastError with
      | some msg => if msg = [] then none else some msg
      | none => none
    match st.rtCache with
    | none =>
      { enabled := true, lastError := le, fetchedAt := none
        entityCount := some 0, tripUpdatesCount := some 0 }
    | some cache =>
      { enabled := true, lastError := le, fetchedAt := some cache.fetchedAt
        entityCount := some cache.entityCount
        tripUpdatesCount := some cache.tripUpdatesCount }

/-! ## Departure estimator (`stops.ts` lines 654–730) -/

/-- The local-time context of one request: `nowSeconds` is the current time
in seconds since local midnight (`now.getHours()*3600 + ...`) and
`midnightEpoch` is the epoch second of `todayStart` (today at 00:00:00
local). -/
structure Clock where
  nowSeconds : Int
  midnightEpoch : Int
deriving DecidableEq, Repr

/-- One schedule-derived candidate row (`StopTimeRow` after
`timeToSeconds(c.departure_time)` has been applied): the theoretical
departure in seconds since local midnight, the static trip id, the stop id
and the stop sequence. -/
structure Candidate where
  tripId : List Char
  departureSeconds : Int
  stopId : List Char
  stopSequence : Nat
deriving DecidableEq, Repr

/-- The estimator's output for one candidate (the `time` string of the
response is the locale rendering of `finalSeconds` and is not modeled). -/
structure EstimatedDeparture where
  finalSeconds : Int
  minutes : Int
  realtime : Bool
  delayMinutes : Option Int
deriving DecidableEq, Repr

/-- The trip-level match of the estimator: exact raw-id lookup first, then
the normalized-id lookup, then (when the fuzzy key is defined) the fuzzy-key
lookup — `rtCache.data.get(id) ?? byNormalizedId.get(normalize(id)) ??
(fuzzyKey ? byFuzzyKey.get(fuzzyKey) : undefined)`. -/
def resolveTripUpdate (cache : RtCache) (tripId : List Char) : Option TripUpdateIndex :=
  (aGet cache.data tripId).orElse fun _ =>
    (aGet cache.dataByNormalizedId (normalizeTripId tripId)).orElse fun _ =>
      match createFuzzyKey tripId with
      | some fuzzyKey => aGet cache.dataByFuzzyKey fuzzyKey
      | none => none

/-- The stop-level update chosen inside a matched trip:
`stuBySeq ?? stuByStop`. -/
def selectStu (tu : TripUpdateIndex) (c : Candidate) : Option StopTimeUpdate :=
  (aGet tu.stopTimesBySequence c.stopSequence).orElse fun _ =>
    aGet tu.stopTimesByStopId c.stopId

/-- The trip-level-delay fallback (`if (!stu && tripUpdate.delay != null)`):
defined exactly when a trip matched, no stop-level update was found in it,
and the trip carries a delay; yields the final seconds and delay minutes it
assigns. -/
def tripLevelResult (cache : RtCache) (theoreticalSeconds : Int) (c : Candidate) :
    Option (Int × Int) :=
  match resolveTripUpdate cache c.tripId with
  | some tu =>
    if (selectStu tu c).isSome then none
    else tu.delay.map fun d => (theoreticalSeconds + d, roundDiv d 60)
  | none => none

/-- The stop-time update the estimator finally applies: the stop-level update
of the matched trip when there is one, else — when the trip-level stage set
nothing (`if (!stu && !isRealtime)`) — the closest `(route, stop)` update
within 900 seconds of the theoretical time converted to an epoch for today. -/
def selectedStu (cache : RtCache) (routeId : List Char) (clock : Clock)
    (c : Candidate) : Option StopTimeUpdate :=
  let stu0 := (resolveTripUpdate cache c.tripId).bind fun tu => selectStu tu c
  if stu0.isNone && (tripLevelResult cache c.departureSeconds c).isNone then
    findClosestRtUpdate cache routeId c.stopId
      (clock.midnightEpoch + c.departureSeconds) 900
  else stu0

/-- Application of a stop-time update (`if (stu) { ... }`): an absolute
departure epoch takes priority — it is converted to local seconds since
midnight and shifted forward by 24h when it lands more than one hour before
"now" — else a departure delay is added to the theoretical time; an update
carrying neither leaves the estimate untouched (`none`). Returns the final
seconds and the delay minutes. -/
def applyStu (clock : Clock) (theoreticalSeconds : Int) (u : StopTimeUpdate) :
    Option (Int × Int) :=
  match u.departureTime with
  | some t =>
    let rtSeconds := (t - clock.midnightEpoch) % 86400
    let finalSeconds :=
      if rtSeconds < clock.nowSeconds - 3600 then rtSeconds + 86400 else rtSeconds
    some (finalSeconds, roundDiv (finalSeconds - theoreticalSeconds) 60)
  | none =>
    match u.departureDelay with
    | some d => some (theoreticalSeconds + d, roundDiv d 60)
    | none => none

/-- Embeds the per-candidate body of `candidatesAfterTime.map` in the
`/:stopId/next` handler: resolve real-time data in priority order and produce
the final estimate (minutes until departure, realtime flag, delay minutes). -/
def estimateDeparture (rtCache : Option RtCache) (routeId : List Char)
    (clock : Clock) (c : Candidate) : EstimatedDeparture :=
  let theo := c.departureSeconds
  let res : Int × Bool × Option Int :=
    match rtCache with
    | none => (theo, false, none)
    | some cache =>
      match selectedStu cache routeId clock c with
      | some u =>
        match applyStu clock theo u with
        | some a => (a.1, true, some a.2)
        | none =>
          match tripLevelResult cache theo c with
          | some (f, dm) => (f, true, some dm)
          | none => (theo, false, none)
      | none =>
        match tripLevelResult cache theo c with
        | some (f, dm) => (f, true, some dm)
        | none => (theo, false, none)
  { finalSeconds := res.1
    minutes := roundDiv (res.1 - clock.nowSeconds) 60
    realtime := res.2.1
    delayMinutes := res.2.2 }

/-! ## Lemmas about the trip-identifier normalizer -/

theorem firstUnderscoreIdx_eq_none {raw : List Char} (h : '_' ∉ raw) :
    firstUnderscoreIdx raw = none := by
  induction raw with
  | nil => rfl
  | cons c rest ih =>
    simp only [List.mem_cons, not_or] at h
    simp [firstUnderscoreIdx, Ne.symm h.1, ih h.2]

theorem firstUnderscoreIdx_append {a : List Char} (b : List Char) (h : '_' ∉ a) :
    firstUnderscoreIdx (a ++ '_' :: b) = some a.length := by
  induction a with
  | nil => simp [firstUnderscoreIdx]
  | cons c rest ih =>
    simp only [List.mem_cons, not_or] at h
    simp [firstUnderscoreIdx, Ne.symm h.1, ih h.2]

theorem normalizeTripId_of_not_mem {raw : List Char} (h : '_' ∉ raw) :
    normalizeTripId raw = raw := by
  simp [normalizeTripId, firstUnderscoreIdx_eq_none h]

theorem normalizeTripId_append {a : List Char} (b : List Char) (h : '_' ∉ a) :
    normalizeTripId (a ++ '_' :: b) = b := by
  have hdrop : (a ++ '_' :: b).drop (a.length + 1) = b := by
    have : a ++ '_' :: b = (a ++ ['_']) ++ b := by simp
    rw [this, List.drop_left' (by simp)]
  simp [normalizeTripId, firstUnderscoreIdx_append b h, hdrop]

/-! ## Lemmas about `splitUnderscore` -/

theorem splitUnderscore_ne_nil (xs : List Char) : splitUnderscore xs ≠ [] := by
  cases xs with
  | nil => simp [splitUnderscore]
  | cons c rest =>
    by_cases h : c = '_'
    · simp [splitUnderscore, h]
    · simp only [splitUnderscore, if_neg h]
      cases splitUnderscore rest <;> simp

theorem splitUnderscore_pieces {xs : List Char} :
    ∀ piece ∈ splitUnderscore xs, '_' ∉ piece := by
  induction xs with
  | nil => simp [splitUnderscore]
  | cons c rest ih =>
    by_cases h : c = '_'
    · simpa [splitUnderscore, h] using ih
    · simp only [splitUnderscore, if_neg h]
      cases hs : splitUnderscore rest with
      | nil => exact absurd hs (splitUnderscore_ne_nil rest)
      | cons s ss =>
        intro piece hp
        rcases List.mem_cons.mp hp with rfl | hp'
        · have hs' : '_' ∉ s := ih s (hs ▸ List.mem_cons_self s ss)
          simp only [List.mem_cons, not_or]
          exact ⟨Ne.symm h, hs'⟩
        · exact ih piece (hs ▸ List.mem_cons_of_mem s hp')

/-- Joining fields back with `'_'` separators. -/
def joinUnderscore : List (List Char) → List Char
  | [] => []
  | [p] => p
  | p :: ps => p ++ '_' :: joinUnderscore ps

theorem joinUnderscore_splitUnderscore (xs : List Char) :
    joinUnderscore (splitUnderscore xs) = xs := by
  induction xs with
  | nil => rfl
  | cons c rest ih =>
    by_cases h : c = '_'
    · subst h
      simp only [splitUnderscore, if_pos rfl]
      cases hs : splitUnderscore rest with
      | nil => exact absurd hs (splitUnderscore_ne_nil rest)
      | cons s ss => rw [hs] at ih; simpa [joinUnderscore] using ih
    · simp only [splitUnderscore, if_neg h]
      cases hs : splitUnderscore rest with
      | nil => exact absurd hs (splitUnderscore_ne_nil rest)
      | cons s ss =>
        rw [hs] at ih
        cases ss with
        | nil => simpa [joinUnderscore] using ih
        | cons s' ss' => simpa [joinUnderscore] using ih

theorem splitUnderscore_append {a : List Char} (b : List Char) (h : '_' ∉ a) :
    splitUnderscore (a ++ '_' :: b) = a :: splitUnderscore b := by
  induction a with
  | nil => simp [splitUnderscore]
  | cons c rest ih =>
    simp only [List.mem_cons, not_or] at h
    simp [splitUnderscore, Ne.symm h.1, ih h.2]

theorem splitUnderscore_of_not_mem {a : List Char} (h : '_' ∉ a) :
    splitUnderscore a = [a] := by
  induction a with
  | nil => rfl
  | cons c rest ih =>
    simp only [List.mem_cons, not_or] at h
    simp [splitUnderscore, Ne.symm h.1, ih h.2]

/-- C9: `normalizeTripId` removes exactly the prefix up to and including the
first underscore, leaves underscore-free inputs unchanged, maps `"A_B_C"` to
`"B_C"`, and is not idempotent (re-normalizing can strip a further segment). -/
theorem claim_c9_normalize (raw a b : List Char) :
    ('_' ∉ raw → normalizeTripId raw = raw) ∧
    ('_' ∉ a → normalizeTripId (a ++ '_' :: b) = b) ∧
    normalizeTripId (("A_B_C").toList) = ("B_C").toList ∧
    (∃ s, normalizeTripId (normalizeTripId s) ≠ normalizeTripId s) := by
  refine ⟨fun h => normalizeTripId_of_not_mem h,
          fun h => normalizeTripId_append b h, by decide, ⟨("A_B_C").toList, by decide⟩⟩

/-- Witness for C9 at concrete inputs. -/
theorem claim_c9_normalize_witness :
    normalizeTripId (("XY").toList) = ("XY").toList ∧
    normalizeTripId (['X', 'Y'] ++ '_' :: ['Z']) = ['Z'] := by
  exact ⟨(claim_c9_normalize (("XY").toList) ['X', 'Y'] ['Z']).1 (by decide),
         (claim_c9_normalize (("XY").toList) ['X', 'Y'] ['Z']).2.1 (by decide)⟩

theorem isDigit_ne_underscore {c : Char} (h : c.isDigit) : c ≠ '_' := by
  intro he
  rw [he] at h
  exact absurd h (by decide)

theorem not_underscore_mem_of_digits {p : List Char} (h : p.all Char.isDigit) : '_' ∉ p := by
  intro hmem
  exact absurd (List.all_eq_true.mp h '_' hmem) (by decide)

/-- Modelled from the spec: a string matches the anchored pattern
`^\d+_(\d+)_([^_]+)_[^_]+_(\d{6})$` exactly when it decomposes into five
underscore-separated fields — non-empty digits, non-empty digits, non-empty
underscore-free, non-empty underscore-free, six digits. -/
def matchesTripIdPattern (tripId : List Char) : Prop :=
  ∃ p s l v t,
    tripId = p ++ '_' :: (s ++ '_' :: (l ++ '_' :: (v ++ '_' :: t))) ∧
    p ≠ [] ∧ p.all Char.isDigit ∧ s ≠ [] ∧ s.all Char.isDigit ∧
    l ≠ [] ∧ '_' ∉ l ∧ v ≠ [] ∧ '_' ∉ v ∧ t.length = 6 ∧ t.all Char.isDigit

theorem parse_of_decomposition {p s l v t : List Char}
    (hp : p ≠ []) (hpd : p.all Char.isDigit) (hs : s ≠ []) (hsd : s.all Char.isDigit)
    (hl : l ≠ []) (hlu : '_' ∉ l) (hv : v ≠ []) (hvu : '_' ∉ v)
    (ht : t.length = 6) (htd : t.all Char.isDigit) :
    parseTripIdComponents (p ++ '_' :: (s ++ '_' :: (l ++ '_' :: (v ++ '_' :: t)))) =
      some ⟨s, l, t, hhmmssToSeconds t⟩ := by
  have hpu : '_' ∉ p := not_underscore_mem_of_digits hpd
  have hsu : '_' ∉ s := not_underscore_mem_of_digits hsd
  have htu : '_' ∉ t := not_underscore_mem_of_digits htd
  rw [parseTripIdComponents, splitUnderscore_append _ hpu, splitUnderscore_append _ hsu,
    splitUnderscore_append _ hlu, splitUnderscore_append _ hvu, splitUnderscore_of_not_mem htu]
  exact if_pos ⟨hp, hpd, hs, hsd, hl, hv, ht, htd⟩

theorem parse_some_elim {tid : List Char} {c : TripIdComponents}
    (h : parseTripIdComponents tid = some c) :
    ∃ p v,
      tid = p ++ '_' :: (c.serviceCode ++ '_' :: (c.line ++ '_' :: (v ++ '_' :: c.time))) ∧
      p ≠ [] ∧ p.all Char.isDigit ∧ c.serviceCode ≠ [] ∧ c.serviceCode.all Char.isDigit ∧
      c.line ≠ [] ∧ '_' ∉ c.line ∧ v ≠ [] ∧ '_' ∉ v ∧
      c.time.length = 6 ∧ c.time.all Char.isDigit ∧
      '_' ∉ p ∧ '_' ∉ c.serviceCode ∧ '_' ∉ c.time ∧
      c.timeSeconds = hhmmssToSeconds c.time := by
  rw [parseTripIdComponents] at h
  rcases hs : splitUnderscore tid with _ | ⟨p, _ | ⟨s, _ | ⟨l, _ | ⟨v, _ | ⟨t, _ | ⟨x, xs⟩⟩⟩⟩⟩⟩ <;>
      rw [hs] at h
  case nil => exact Option.noConfusion h
  case cons.nil => exact Option.noConfusion h
  case cons.cons.nil => exact Option.noConfusion h
  case cons.cons.cons.nil => exact Option.noConfusion h
  case cons.cons.cons.cons.nil => exact Option.noConfusion h
  case cons.cons.cons.cons.cons.cons => exact Option.noConfusion h
  case cons.cons.cons.cons.cons.nil =>
    have h' :
        (if p ≠ [] ∧ p.all Char.isDigit ∧ s ≠ [] ∧ s.all Char.isDigit ∧
            l ≠ [] ∧ v ≠ [] ∧ t.length = 6 ∧ t.all Char.isDigit then
          some (⟨s, l, t, hhmmssToSeconds t⟩ : TripIdComponents)
        else none) = some c := h
    split_ifs at h' with hcond
    · obtain ⟨hp, hpd, hsne, hsd, hlne, hvne, htlen, htd⟩ := hcond
      obtain rfl : (⟨s, l, t, hhmmssToSeconds t⟩ : TripIdComponents) = c := Option.some.inj h'
      have hjoin : joinUnderscore (splitUnderscore tid) = tid := joinUnderscore_splitUnderscore tid
      rw [hs] at hjoin
      simp only [joinUnderscore] at hjoin
      refine ⟨p, v, hjoin.symm, hp, hpd, hsne, hsd, hlne, ?_, hvne, ?_, htlen, htd, ?_, ?_, ?_, rfl⟩
      · exact splitUnderscore_pieces l (show l ∈ splitUnderscore tid by rw [hs]; simp)
      · exact splitUnderscore_pieces v (show v ∈ splitUnderscore tid by rw [hs]; simp)
      · exact splitUnderscore_pieces p (show p ∈ splitUnderscore tid by rw [hs]; simp)
      · exact splitUnderscore_pieces s (show s ∈ splitUnderscore tid by rw [hs]; simp)
      · exact splitUnderscore_pieces t (show t ∈ splitUnderscore tid by rw [hs]; simp)

/-- C7: `parseTripIdComponents` succeeds exactly on strings matching
`^\d+_(\d+)_([^_]+)_[^_]+_(\d{6})$`, in which case `serviceCode`, `line` and
`time` are the three captured fields and `timeSeconds` is the `HHMMSS`
decoding (`hhmmssToSeconds`, with no range validation — the fifth conjunct
shows an hour of 25); any non-matching string yields `none` (the function is
total, so it never throws). -/
theorem claim_c7_parse :
    (∀ tripId, (parseTripIdComponents tripId).isSome ↔ matchesTripIdPattern tripId) ∧
    (∀ p s l v t, p ≠ [] → p.all Char.isDigit → s ≠ [] → s.all Char.isDigit →
      l ≠ [] → '_' ∉ l → v ≠ [] → '_' ∉ v → t.length = 6 → t.all Char.isDigit →
      parseTripIdComponents (p ++ '_' :: (s ++ '_' :: (l ++ '_' :: (v ++ '_' :: t)))) =
        some ⟨s, l, t, hhmmssToSeconds t⟩) ∧
    (∀ tripId, ¬ matchesTripIdPattern tripId → parseTripIdComponents tripId = none) ∧
    parseTripIdComponents (("1306_1000002_B_5_144800").toList) =
      some ⟨("1000002").toList, ("B").toList, ("144800").toList, 14 * 3600 + 48 * 60⟩ ∧
    parseTripIdComponents (("1_2_A_B_250000").toList) =
      some ⟨("2").toList, ("A").toList, ("250000").toList, 25 * 3600⟩ ∧
    parseTripIdComponents (("no_underscores_here").toList) = none := by
  have hiff : ∀ tripId, (parseTripIdComponents tripId).isSome ↔ matchesTripIdPattern tripId := by
    intro tripId
    constructor
    · intro hsome
      obtain ⟨c, hc⟩ := Option.isSome_iff_exists.mp hsome
      obtain ⟨p, v, heq, hp, hpd, hsne, hsd, hlne, hlu, hvne, hvu, htlen, htd, -⟩ :=
        parse_some_elim hc
      exact ⟨p, c.serviceCode, c.line, v, c.time,
        heq, hp, hpd, hsne, hsd, hlne, hlu, hvne, hvu, htlen, htd⟩
    · rintro ⟨p, s, l, v, t, rfl, hp, hpd, hsne, hsd, hlne, hlu, hvne, hvu, htlen, htd⟩
      rw [parse_of_decomposition hp hpd hsne hsd hlne hlu hvne hvu htlen htd]
      rfl
  refine ⟨hiff, fun p s l v t hp hpd hsne hsd hlne hlu hvne hvu htlen htd =>
    parse_of_decomposition hp hpd hsne hsd hlne hlu hvne hvu htlen htd, ?_, by decide, by decide, by decide⟩
  intro tripId hnot
  cases hp : parseTripIdComponents tripId with
  | none => rfl
  | some c => exact absurd ((hiff tripId).mp (by rw [hp]; rfl)) hnot

/-- Witness for C7 at concrete inputs. -/
theorem claim_c7_parse_witness :
    parseTripIdComponents
        (['9'] ++ '_' :: (['2'] ++ '_' :: (['A'] ++ '_' :: (['B'] ++ '_' :: ("250000").toList)))) =
      some ⟨['2'], ['A'], ("250000").toList, hhmmssToSeconds (("250000").toList)⟩ ∧
    matchesTripIdPattern (("1306_1000002_B_5_144800").toList) :=
  ⟨claim_c7_parse.2.1 ['9'] ['2'] ['A'] ['B'] (("250000").toList)
      (by decide) (by decide) (by decide) (by decide) (by decide)
      (by decide) (by decide) (by decide) (by decide) (by decide),
    (claim_c7_parse.1 (("1306_1000002_B_5_144800").toList)).mp (by decide)⟩

/-! ## Lemmas about decimal rendering and the fuzzy key -/

theorem natDigitsAux_congr :
    ∀ n f1 f2, n < f1 → n < f2 → natDigitsAux f1 n = natDigitsAux f2 n := by
  intro n
  induction n using Nat.strong_induction_on with
  | _ n ih =>
    intro f1 f2 h1 h2
    match f1, f2 with
    | g1 + 1, g2 + 1 =>
      by_cases hn : n < 10
      · simp [natDigitsAux, hn]
      · have hdiv : n / 10 < n := Nat.div_lt_self (by omega) (by omega)
        simp only [natDigitsAux, if_neg hn]
        rw [ih (n / 10) hdiv g1 g2 (by omega) (by omega)]

theorem natDigits_unfold (n : Nat) :
    natDigits n = if n < 10 then [digitChar n] else natDigits (n / 10) ++ [digitChar (n % 10)] := by
  by_cases hn : n < 10
  · simp [natDigits, natDigitsAux, hn]
  · have hdiv : n / 10 < n := Nat.div_lt_self (by omega) (by omega)
    rw [natDigits,
      show natDigitsAux (n + 1) n =
        if n < 10 then [digitChar n] else natDigitsAux n (n / 10) ++ [digitChar (n % 10)] from rfl,
      if_neg hn, if_neg hn, natDigitsAux_congr (n / 10) n (n / 10 + 1) hdiv (by omega)]
    rfl

theorem natDigits_ne_nil (n : Nat) : natDigits n ≠ [] := by
  rw [natDigits_unfold]
  split <;> simp

theorem digitChar_inj_lt : ∀ a, a < 10 → ∀ b, b < 10 → digitChar a = digitChar b → a = b := by
  decide

theorem digitChar_ne_underscore : ∀ a, a < 10 → digitChar a ≠ '_' := by
  decide

theorem natDigits_not_underscore (n : Nat) : '_' ∉ natDigits n := by
  induction n using Nat.strong_induction_on with
  | _ n ih =>
    rw [natDigits_unfold]
    by_cases hn : n < 10
    · simpa [hn] using (digitChar_ne_underscore n hn).symm
    · have hdiv : n / 10 < n := Nat.div_lt_self (by omega) (by omega)
      simp only [if_neg hn, List.mem_append, List.mem_singleton, not_or]
      exact ⟨ih (n / 10) hdiv, (digitChar_ne_underscore (n % 10) (by omega)).symm⟩

theorem natDigits_inj : ∀ m n, natDigits m = natDigits n → m = n := by
  intro m
  induction m using Nat.strong_induction_on with
  | _ m ih =>
    intro n h
    rw [natDigits_unfold m, natDigits_unfold n] at h
    by_cases hm : m < 10 <;> by_cases hn : n < 10
    · rw [if_pos hm, if_pos hn] at h
      exact digitChar_inj_lt m hm n hn (List.cons.inj h).1
    · rw [if_pos hm, if_neg hn] at h
      have hlen := congrArg List.length h
      have hpos : 0 < (natDigits (n / 10)).length :=
        List.length_pos.mpr (natDigits_ne_nil (n / 10))
      simp only [List.length_singleton, List.length_append] at hlen
      omega
    · rw [if_neg hm, if_pos hn] at h
      have hlen := congrArg List.length h
      have hpos : 0 < (natDigits (m / 10)).length :=
        List.length_pos.mpr (natDigits_ne_nil (m / 10))
      simp only [List.length_singleton, List.length_append] at hlen
      omega
    · rw [if_neg hm, if_neg hn] at h
      have h' := congrArg List.reverse h
      simp only [List.reverse_append, List.reverse_singleton, List.singleton_append] at h'
      obtain ⟨hdig, hrev⟩ := List.cons.inj h'
      have hdivs : m / 10 = n / 10 :=
        ih (m / 10) (Nat.div_lt_self (by omega) (by omega)) (n / 10)
          (List.reverse_inj.mp hrev)
      have hmods : m % 10 = n % 10 :=
        digitChar_inj_lt (m % 10) (by omega) (n % 10) (by omega) hdig
      omega

theorem underscore_append_inj :
    ∀ {a a' b b' : List Char}, '_' ∉ a → '_' ∉ a' →
      a ++ '_' :: b = a' ++ '_' :: b' → a = a' ∧ b = b' := by
  intro a
  induction a with
  | nil =>
    intro a' b b' _ ha' h
    cases a' with
    | nil => exact ⟨rfl, (List.cons.inj h).2⟩
    | cons c rest =>
      obtain ⟨hc, -⟩ := List.cons.inj h
      exact absurd (hc ▸ List.mem_cons_self c rest) ha'
  | cons c rest ih =>
    intro a' b b' ha ha' h
    cases a' with
    | nil =>
      obtain ⟨hc, -⟩ := List.cons.inj h
      exact absurd (hc ▸ List.mem_cons_self c rest) ha
    | cons c' rest' =>
      obtain ⟨hc, htl⟩ := List.cons.inj h
      simp only [List.mem_cons, not_or] at ha ha'
      obtain ⟨hrest, hb⟩ := ih ha.2 ha'.2 htl
      exact ⟨by rw [hc, hrest], hb⟩

theorem createFuzzyKey_of_parse {tid : List Char} {c : TripIdComponents}
    (h : parseTripIdComponents tid = some c) :
    createFuzzyKey tid =
      some (c.serviceCode ++ '_' :: (c.line ++ '_' :: natDigits (c.timeSeconds / 300 * 300))) := by
  unfold createFuzzyKey
  rw [h]

/-- C8: equal `serviceCode`, `line` and 5-minute bucket give equal fuzzy
keys (in particular for two ids differing only in their first segment);
different 5-minute buckets give different keys (which covers adjacent
buckets); unparseable ids give no key. -/
theorem claim_c8_fuzzy :
    (∀ t1 t2 c1 c2, parseTripIdComponents t1 = some c1 → parseTripIdComponents t2 = some c2 →
      c1.serviceCode = c2.serviceCode → c1.line = c2.line →
      c1.timeSeconds / 300 * 300 = c2.timeSeconds / 300 * 300 →
      createFuzzyKey t1 = createFuzzyKey t2 ∧ (createFuzzyKey t1).isSome) ∧
    (∀ p1 p2 rest c1 c2, '_' ∉ p1 → '_' ∉ p2 →
      parseTripIdComponents (p1 ++ '_' :: rest) = some c1 →
      parseTripIdComponents (p2 ++ '_' :: rest) = some c2 →
      createFuzzyKey (p1 ++ '_' :: rest) = createFuzzyKey (p2 ++ '_' :: rest)) ∧
    (∀ t1 t2 c1 c2, parseTripIdComponents t1 = some c1 → parseTripIdComponents t2 = some c2 →
      c1.timeSeconds / 300 * 300 ≠ c2.timeSeconds / 300 * 300 →
      createFuzzyKey t1 ≠ createFuzzyKey t2) ∧
    (∀ tid, parseTripIdComponents tid = none → createFuzzyKey tid = none) := by
  refine ⟨?_, ?_, ?_, ?_⟩
  · intro t1 t2 c1 c2 h1 h2 hsc hl hw
    rw [createFuzzyKey_of_parse h1, createFuzzyKey_of_parse h2, hsc, hl, hw]
    exact ⟨rfl, rfl⟩
  · intro p1 p2 rest c1 c2 hp1 hp2 h1 h2
    obtain ⟨q1, v1, he1, -, -, -, -, -, hl1u, -, hv1u, -, -, hq1u, hsc1u, -, hts1⟩ :=
      parse_some_elim h1
    obtain ⟨q2, v2, he2, -, -, -, -, -, hl2u, -, hv2u, -, -, hq2u, hsc2u, -, hts2⟩ :=
      parse_some_elim h2
    obtain ⟨-, hrest1⟩ := underscore_append_inj hp1 hq1u he1
    obtain ⟨-, hrest2⟩ := underscore_append_inj hp2 hq2u he2
    have hco : c1.serviceCode ++ '_' :: (c1.line ++ '_' :: (v1 ++ '_' :: c1.time)) =
        c2.serviceCode ++ '_' :: (c2.line ++ '_' :: (v2 ++ '_' :: c2.time)) :=
      hrest1.symm.trans hrest2
    obtain ⟨hsc, hco2⟩ := underscore_append_inj hsc1u hsc2u hco
    obtain ⟨hline, hco3⟩ := underscore_append_inj hl1u hl2u hco2
    obtain ⟨-, htime⟩ := underscore_append_inj hv1u hv2u hco3
    have hts : c1.timeSeconds = c2.timeSeconds := by rw [hts1, hts2, htime]
    rw [createFuzzyKey_of_parse h1, createFuzzyKey_of_parse h2, hsc, hline, hts]
  · intro t1 t2 c1 c2 h1 h2 hw hkeq
    obtain ⟨-, -, -, -, -, -, -, -, hl1u, -, -, -, -, -, hsc1u, -, -⟩ := parse_some_elim h1
    obtain ⟨-, -, -, -, -, -, -, -, hl2u, -, -, -, -, -, hsc2u, -, -⟩ := parse_some_elim h2
    rw [createFuzzyKey_of_parse h1, createFuzzyKey_of_parse h2] at hkeq
    have hk := Option.some.inj hkeq
    obtain ⟨-, hrest⟩ := underscore_append_inj hsc1u hsc2u hk
    obtain ⟨-, hnd⟩ := underscore_append_inj hl1u hl2u hrest
    exact hw (natDigits_inj _ _ hnd)
  · intro tid h
    unfold createFuzzyKey
    rw [h]

/-- Witness for C8: two ids differing only in their first segment and in the
seconds digit within one 5-minute bucket share a fuzzy key; two ids in
adjacent buckets do not. -/
theorem claim_c8_fuzzy_witness :
    (createFuzzyKey (("1306_1000002_B_5_144800").toList) =
        createFuzzyKey (("99_1000002_B_5_144900").toList)) ∧
    createFuzzyKey (("1306_1000002_B_5_144800").toList) ≠
      createFuzzyKey (("1306_1000002_B_5_145100").toList) :=
  ⟨(claim_c8_fuzzy.1 (("1306_1000002_B_5_144800").toList) (("99_1000002_B_5_144900").toList)
      ⟨("1000002").toList, ("B").toList, ("144800").toList, 53280⟩
      ⟨("1000002").toList, ("B").toList, ("144900").toList, 53340⟩
      (by decide) (by decide) (by decide) (by decide) (by decide)).1,
    claim_c8_fuzzy.2.2.1 (("1306_1000002_B_5_144800").toList) (("1306_1000002_B_5_145100").toList)
      ⟨("1000002").toList, ("B").toList, ("144800").toList, 53280⟩
      ⟨("1000002").toList, ("B").toList, ("145100").toList, 53460⟩
      (by decide) (by decide) (by decide)⟩

/-! ## Claims about the poller error handling -/

/-- Counterexample to C6 as stated: an exception whose message is the empty
string is recorded in `lastError` but is not retrievable through the status
surface, because `getRtStatus` spreads the message via
`...(lastError && { lastError })` and the empty string is falsy. -/
theorem claim_c6_counterexample :
    (fetchRtFeed true 0 { rtCache := none, lastError := none } (.failure [])).lastError =
        some [] ∧
      (getRtStatus true
          (fetchRtFeed true 0 { rtCache := none, lastError := none } (.failure []))).lastError =
        none := by
  decide

/-- C6 (amended): an exception during a fetch/rebuild leaves the published
cache untouched and records the error message, which is retrievable through
the status surface whenever it is non-empty; and no partially built cache is
ever published — the published cache either stays what it was or becomes the
completely built snapshot of a successfully decoded feed. -/
theorem claim_c6_error_keeps_cache (st : RtState) (now : Int) (msg : List Char) :
    getRtCache (fetchRtFeed true now st (.failure msg)) = getRtCache st ∧
    (fetchRtFeed true now st (.failure msg)).lastError = some msg ∧
    (msg ≠ [] →
      (getRtStatus true (fetchRtFeed true now st (.failure msg))).lastError = some msg) ∧
    (∀ outcome, getRtCache (fetchRtFeed true now st outcome) = getRtCache st ∨
      ∃ entities, outcome = .success entities ∧
        getRtCache (fetchRtFeed true now st outcome) = some (buildCache now entities)) := by
  refine ⟨rfl, rfl, ?_, ?_⟩
  · intro hm
    cases hc : st.rtCache <;> simp [fetchRtFeed, getRtStatus, hm, hc]
  · intro outcome
    cases outcome with
    | noBuffer => exact Or.inl rfl
    | failure msg' => exact Or.inl rfl
    | success entities => exact Or.inr ⟨entities, rfl, rfl⟩

/-- Witness for C6 (amended) at a concrete state and message. -/
theorem claim_c6_error_keeps_cache_witness :
    (getRtStatus true
        (fetchRtFeed true 5 { rtCache := none, lastError := none } (.failure ['x']))).lastError =
      some ['x'] :=
  (claim_c6_error_keeps_cache { rtCache := none, lastError := none } 5 ['x']).2.2.1 (by decide)

/-- C10: a successful fetch and rebuild clears the recorded error, so the
status surface reports no `lastError` afterward. -/
theorem claim_c10_success_clears_error (st : RtState) (now : Int)
    (entities : List FeedEntity) :
    (fetchRtFeed true now st (.success entities)).lastError = none ∧
    (getRtStatus true (fetchRtFeed true now st (.success entities))).lastError = none := by
  exact ⟨rfl, by simp [fetchRtFeed, getRtStatus]⟩

/-! ## Claims about the departure estimator -/

/-- C1: the estimator resolves the trip update by raw id first, else by
normalized id, else by fuzzy key; inside a matched trip it prefers the
stop-sequence hit over the stop-id hit; a selected stop-level update decides
the estimate (the trip-level delay is never consulted then); and inside a
stop-level update an absolute departure time decides the result even when a
delay is also present, the delay being used only when no absolute time is. -/
theorem claim_c1_estimator_priority (cache : RtCache) (routeId : List Char)
    (clock : Clock) (c : Candidate) :
    ((aGet cache.data c.tripId).isSome →
      resolveTripUpdate cache c.tripId = aGet cache.data c.tripId) ∧
    (aGet cache.data c.tripId = none →
      (aGet cache.dataByNormalizedId (normalizeTripId c.tripId)).isSome →
      resolveTripUpdate cache c.tripId =
        aGet cache.dataByNormalizedId (normalizeTripId c.tripId)) ∧
    (aGet cache.data c.tripId = none →
      aGet cache.dataByNormalizedId (normalizeTripId c.tripId) = none →
      resolveTripUpdate cache c.tripId =
        match createFuzzyKey c.tripId with
        | some fuzzyKey => aGet cache.dataByFuzzyKey fuzzyKey
        | none => none) ∧
    (∀ tu : TripUpdateIndex,
      ((aGet tu.stopTimesBySequence c.stopSequence).isSome →
        selectStu tu c = aGet tu.stopTimesBySequence c.stopSequence) ∧
      (aGet tu.stopTimesBySequence c.stopSequence = none →
        selectStu tu c = aGet tu.stopTimesByStopId c.stopId)) ∧
    (∀ u t, u.departureTime = some t →
      applyStu clock c.departureSeconds u =
        some (if (t - clock.midnightEpoch) % 86400 < clock.nowSeconds - 3600 then
            (t - clock.midnightEpoch) % 86400 + 86400
          else (t - clock.midnightEpoch) % 86400,
          roundDiv ((if (t - clock.midnightEpoch) % 86400 < clock.nowSeconds - 3600 then
              (t - clock.midnightEpoch) % 86400 + 86400
            else (t - clock.midnightEpoch) % 86400) - c.departureSeconds) 60)) ∧
    (∀ u d, u.departureTime = none → u.departureDelay = some d →
      applyStu clock c.departureSeconds u =
        some (c.departureSeconds + d, roundDiv d 60)) ∧
    (∀ tu u f dm, resolveTripUpdate cache c.tripId = some tu → selectStu tu c = some u →
      applyStu clock c.departureSeconds u = some (f, dm) →
      estimateDeparture (some cache) routeId clock c =
        ⟨f, roundDiv (f - clock.nowSeconds) 60, true, some dm⟩) ∧
    (∀ tu d, resolveTripUpdate cache c.tripId = some tu → selectStu tu c = none →
      tu.delay = some d →
      estimateDeparture (some cache) routeId clock c =
        ⟨c.departureSeconds + d, roundDiv (c.departureSeconds + d - clock.nowSeconds) 60,
          true, some (roundDiv d 60)⟩) := by
  refine ⟨?_, ?_, ?_, ?_, ?_, ?_, ?_, ?_⟩
  · intro hsome
    obtain ⟨tu, htu⟩ := Option.isSome_iff_exists.mp hsome
    rw [resolveTripUpdate, htu]
    rfl
  · intro hnone hsome
    obtain ⟨tu, htu⟩ := Option.isSome_iff_exists.mp hsome
    rw [resolveTripUpdate, hnone, htu]
    rfl
  · intro hnone hnone2
    rw [resolveTripUpdate, hnone, hnone2]
    rfl
  · intro tu
    constructor
    · intro hsome
      obtain ⟨u, hu⟩ := Option.isSome_iff_exists.mp hsome
      rw [selectStu, hu]
      rfl
    · intro hnone
      rw [selectStu, hnone]
      rfl
  · intro u t ht
    rw [applyStu, ht]
  · intro u d ht hd
    rw [applyStu, ht, hd]
  · intro tu u f dm hres hsel happ
    have hstu0 : (resolveTripUpdate cache c.tripId).bind (fun tu => selectStu tu c) = some u := by
      rw [hres]
      exact hsel
    have hselected : selectedStu cache routeId clock c = some u := by
      rw [selectedStu, hstu0]
      simp
    simp [estimateDeparture, hselected, happ]
  · intro tu d hres hsel hdel
    have hstu0 : (resolveTripUpdate cache c.tripId).bind (fun tu => selectStu tu c) = none := by
      rw [hres]
      exact hsel
    have htlr : tripLevelResult cache c.departureSeconds c = some (c.departureSeconds + d, roundDiv d 60) := by
      simp [tripLevelResult, hres, hsel, hdel]
    have hselected : selectedStu cache routeId clock c = none := by
      rw [selectedStu, hstu0, htlr]
      simp
    simp [estimateDeparture, hselected, htlr]

/-- Fixture: a trip update with both a stop-sequence-level update (carrying
both an absolute time and a delay) and a trip-level delay. -/
def tuEx : TripUpdateIndex :=
  { tripId := ("X").toList, delay := some 600,
    stopTimesBySequence := [(3, { departureTime := some 1000, departureDelay := some 30 })] }

/-- Fixture: a cache whose raw-id index contains `tuEx`. -/
def cacheEx : RtCache :=
  { fetchedAt := 0, entityCount := 1, tripUpdatesCount := 1,
    data := [(("X").toList, tuEx)], dataByNormalizedId := [], dataByFuzzyKey := [],
    dataByRouteStopTime := [], dataByRouteStop := [] }

/-- Fixture: now = 500 s after local midnight, local midnight at epoch 0. -/
def clockEx : Clock := ⟨500, 0⟩

/-- Fixture: a candidate for trip `"X"`, theoretical departure 900 s,
stop `"S"`, stop sequence 3. -/
def candEx : Candidate := ⟨("X").toList, 900, ("S").toList, 3⟩

/-- Witness for C1: on `cacheEx` the raw id wins, and the stop-level absolute
time (1000) decides the estimate — the stop-level delay (30) and the
trip-level delay (600) are both ignored. -/
theorem claim_c1_estimator_priority_witness :
    resolveTripUpdate cacheEx candEx.tripId = aGet cacheEx.data candEx.tripId ∧
    estimateDeparture (some cacheEx) (("R").toList) clockEx candEx =
      ⟨1000, roundDiv (1000 - 500) 60, true, some 2⟩ :=
  ⟨(claim_c1_estimator_priority cacheEx (("R").toList) clockEx candEx).1 (by decide),
    (claim_c1_estimator_priority cacheEx (("R").toList) clockEx candEx).2.2.2.2.2.2.1
      tuEx { departureTime := some 1000, departureDelay := some 30 } 1000 2
      (by decide) (by decide) (by decide)⟩

/-- C5: when the estimator resolves a stop-time update that carries an
absolute departure epoch `t`, the epoch is converted to local seconds since
midnight (for the constant-offset clock model, `(t - midnightEpoch) % 86400`),
shifted forward by 86400 s exactly when it lies more than one hour before
"now", and the candidate is marked realtime with
`delayMinutes = Math.round((final - theoretical) / 60)`. -/
theorem claim_c5_midnight_rollover (cache : RtCache) (routeId : List Char)
    (clock : Clock) (c : Candidate) (u : StopTimeUpdate) (t : Int)
    (hsel : selectedStu cache routeId clock c = some u)
    (ht : u.departureTime = some t) :
    estimateDeparture (some cache) routeId clock c =
      (let rtSeconds := (t - clock.midnightEpoch) % 86400
       let fin := if rtSeconds < clock.nowSeconds - 3600 then rtSeconds + 86400 else rtSeconds
       { finalSeconds := fin, minutes := roundDiv (fin - clock.nowSeconds) 60,
         realtime := true,
         delayMinutes := some (roundDiv (fin - c.departureSeconds) 60) }) := by
  have happ : applyStu clock c.departureSeconds u =
      some (if (t - clock.midnightEpoch) % 86400 < clock.nowSeconds - 3600 then
          (t - clock.midnightEpoch) % 86400 + 86400 else (t - clock.midnightEpoch) % 86400,
        roundDiv ((if (t - clock.midnightEpoch) % 86400 < clock.nowSeconds - 3600 then
          (t - clock.midnightEpoch) % 86400 + 86400 else (t - clock.midnightEpoch) % 86400) -
          c.departureSeconds) 60) := by
    rw [applyStu, ht]
  simp only [estimateDeparture, hsel, happ]

/-- Fixture for the midnight rollover: a trip whose stop-sequence update
reports an absolute departure at epoch 120 (00:02 local). -/
def tuRoll : TripUpdateIndex :=
  { tripId := ("Y").toList, stopTimesBySequence := [(1, { departureTime := some 120 })] }

/-- Fixture cache holding `tuRoll` under its raw id. -/
def cacheRoll : RtCache :=
  { fetchedAt := 0, entityCount := 1, tripUpdatesCount := 1,
    data := [(("Y").toList, tuRoll)], dataByNormalizedId := [], dataByFuzzyKey := [],
    dataByRouteStopTime := [], dataByRouteStop := [] }

/-- Fixture clock: now = 23:50 local (85800 s), local midnight at epoch 0. -/
def clockRoll : Clock := ⟨85800, 0⟩

/-- Fixture candidate scheduled at 23:50 local for trip `"Y"`. -/
def candRoll : Candidate := ⟨("Y").toList, 85800, ("S").toList, 1⟩

/-- Witness for C5: the 00:02 report against a 23:50 schedule resolves to
"12 minutes after 23:50" (final 86520 s), not a negative delta. -/
theorem claim_c5_midnight_rollover_witness :
    estimateDeparture (some cacheRoll) (("R").toList) clockRoll candRoll =
      ⟨86520, 12, true, some 12⟩ := by
  have h := claim_c5_midnight_rollover cacheRoll (("R").toList) clockRoll candRoll
    { departureTime := some 120 } 120 (by decide) (by decide)
  rw [h]
  decide

/-- C2: whenever the trip-level stage produced no result — no stop-level
update was selected from a matched trip and no trip-level delay applied —
the estimator queries `findClosestRtUpdate` for the same route and stop at
the theoretical time converted to an epoch for today
(`midnightEpoch + theoreticalSeconds`) with a 900-second tolerance, and a
found update goes through `applyStu`, the same absolute-time-then-delay
logic a stop-level trip match uses. -/
theorem claim_c2_proximity_fallback (cache : RtCache) (routeId : List Char)
    (clock : Clock) (c : Candidate)
    (h1 : (resolveTripUpdate cache c.tripId).bind (fun tu => selectStu tu c) = none)
    (h2 : tripLevelResult cache c.departureSeconds c = none) :
    selectedStu cache routeId clock c =
      findClosestRtUpdate cache routeId c.stopId
        (clock.midnightEpoch + c.departureSeconds) 900 ∧
    estimateDeparture (some cache) routeId clock c =
      (match findClosestRtUpdate cache routeId c.stopId
          (clock.midnightEpoch + c.departureSeconds) 900 with
       | some u =>
         match applyStu clock c.departureSeconds u with
         | some a =>
           { finalSeconds := a.1, minutes := roundDiv (a.1 - clock.nowSeconds) 60,
             realtime := true, delayMinutes := some a.2 }
         | none =>
           { finalSeconds := c.departureSeconds,
             minutes := roundDiv (c.departureSeconds - clock.nowSeconds) 60,
             realtime := false, delayMinutes := none }
       | none =>
         { finalSeconds := c.departureSeconds,
           minutes := roundDiv (c.departureSeconds - clock.nowSeconds) 60,
           realtime := false, delayMinutes := none }) := by
  have hsel : selectedStu cache routeId clock c =
      findClosestRtUpdate cache routeId c.stopId
        (clock.midnightEpoch + c.departureSeconds) 900 := by
    rw [selectedStu, h1, h2]
    simp
  refine ⟨hsel, ?_⟩
  cases hfind : findClosestRtUpdate cache routeId c.stopId
      (clock.midnightEpoch + c.departureSeconds) 900 with
  | none => simp [estimateDeparture, hsel, hfind, h2]
  | some u =>
    cases happ : applyStu clock c.departureSeconds u with
    | none => simp [estimateDeparture, hsel, hfind, happ, h2]
    | some a => simp [estimateDeparture, hsel, hfind, happ]

/-- Fixture for the proximity fallback: no trip-keyed entries, one
`(route, stop)` update at epoch 1000. -/
def cacheFb : RtCache :=
  { fetchedAt := 0, entityCount := 1, tripUpdatesCount := 1,
    data := [], dataByNormalizedId := [], dataByFuzzyKey := [], dataByRouteStopTime := [],
    dataByRouteStop :=
      [(createRouteStopKey (("R").toList) (("S").toList),
        [{ departureTime := some 1000, departureEpoch := 1000 }])] }

/-- Fixture clock for the fallback witness. -/
def clockFb : Clock := ⟨500, 0⟩

/-- Fixture candidate with an unmatched trip id `"Z"`. -/
def candFb : Candidate := ⟨("Z").toList, 900, ("S").toList, 1⟩

/-- Witness for C2: with no trip-level match, the 1000-epoch update 100 s
away from the theoretical epoch 900 is applied (final 1000 s, +2 min). -/
theorem claim_c2_proximity_fallback_witness :
    estimateDeparture (some cacheFb) (("R").toList) clockFb candFb =
      ⟨1000, 8, true, some 2⟩ := by
  have h := claim_c2_proximity_fallback cacheFb (("R").toList) clockFb candFb
    (by decide) (by decide)
  rw [h.2]
  decide

/-! ## Lemmas about the cache builder -/

theorem aGet_cons {κ α : Type} [DecidableEq κ] (k' : κ) (v : α) (m : List (κ × α)) (k : κ) :
    aGet ((k', v) :: m) k = if k' = k then some v else aGet m k := by
  by_cases h : k' = k <;> simp [aGet, List.find?_cons, h]

/-- The entity's write, when it performs one: the truthy raw trip id together
with the trip update it indexes. -/
def entityWriter (ent : FeedEntity) : Option (List Char × FeedTripUpdate) :=
  match ent.tripUpdate with
  | some tu => (tripUpdateId tu).map fun tid => (tid, tu)
  | none => none

/-- All (raw id, trip update) pairs a feed snapshot inserts, in feed order. -/
def writers (entities : List FeedEntity) : List (List Char × FeedTripUpdate) :=
  entities.filterMap entityWriter

theorem insertEntity_data (st : BuildState) (ent : FeedEntity) :
    (insertEntity st ent).data =
      (match entityWriter ent with
       | some w => (w.1, buildIndex w.1 w.2) :: st.data
       | none => st.data) := by
  cases ent with
  | mk otu =>
    cases otu with
    | none => rfl
    | some tu =>
      cases htid : tripUpdateId tu with
      | none => simp [insertEntity, entityWriter, htid]
      | some tid => simp [insertEntity, entityWriter, htid]

theorem insertEntity_byNorm (st : BuildState) (ent : FeedEntity) :
    (insertEntity st ent).byNorm =
      (match entityWriter ent with
       | some w => (normalizeTripId w.1, buildIndex w.1 w.2) :: st.byNorm
       | none => st.byNorm) := by
  cases ent with
  | mk otu =>
    cases otu with
    | none => rfl
    | some tu =>
      cases htid : tripUpdateId tu with
      | none => simp [insertEntity, entityWriter, htid]
      | some tid => simp [insertEntity, entityWriter, htid]

theorem insertEntity_byFuzzy (st : BuildState) (ent : FeedEntity) :
    (insertEntity st ent).byFuzzy =
      (match entityWriter ent with
       | some w =>
         match createFuzzyKey w.1 with
         | some fk => (fk, buildIndex w.1 w.2) :: st.byFuzzy
         | none => st.byFuzzy
       | none => st.byFuzzy) := by
  cases ent with
  | mk otu =>
    cases otu with
    | none => rfl
    | some tu =>
      cases htid : tripUpdateId tu with
      | none => simp [insertEntity, entityWriter, htid]
      | some tid =>
        cases hfk : createFuzzyKey tid <;> simp [insertEntity, entityWriter, htid, hfk]

theorem build_data_eq (entities : List FeedEntity) :
    ∀ st : BuildState,
      (entities.foldl insertEntity st).data =
        ((writers entities).reverse.map fun w => (w.1, buildIndex w.1 w.2)) ++ st.data := by
  induction entities with
  | nil => intro st; simp [writers]
  | cons e rest ih =>
    intro st
    rw [List.foldl_cons, ih (insertEntity st e), insertEntity_data st e]
    simp only [writers, List.filterMap_cons]
    cases entityWriter e <;> simp [writers]

theorem build_byNorm_eq (entities : List FeedEntity) :
    ∀ st : BuildState,
      (entities.foldl insertEntity st).byNorm =
        ((writers entities).reverse.map fun w => (normalizeTripId w.1, buildIndex w.1 w.2)) ++
          st.byNorm := by
  induction entities with
  | nil => intro st; simp [writers]
  | cons e rest ih =>
    intro st
    rw [List.foldl_cons, ih (insertEntity st e), insertEntity_byNorm st e]
    simp only [writers, List.filterMap_cons]
    cases entityWriter e <;> simp [writers]

theorem build_byFuzzy_eq (entities : List FeedEntity) :
    ∀ st : BuildState,
      (entities.foldl insertEntity st).byFuzzy =
        ((writers entities).reverse.filterMap fun w =>
          (createFuzzyKey w.1).map fun fk => (fk, buildIndex w.1 w.2)) ++ st.byFuzzy := by
  induction entities with
  | nil => intro st; simp [writers]
  | cons e rest ih =>
    intro st
    rw [List.foldl_cons, ih (insertEntity st e), insertEntity_byFuzzy st e]
    simp only [writers, List.filterMap_cons]
    cases hw : entityWriter e with
    | none => simp [writers]
    | some w =>
      cases hfk : createFuzzyKey w.1 <;>
        simp [writers, List.filterMap_cons, hfk]

theorem aGet_map_eq_of_unique {α κ β : Type} [DecidableEq κ]
    (ws : List α) (kf : α → κ) (vf : α → β) (k : κ) (I : β)
    (hex : ∃ w ∈ ws, kf w = k) (hall : ∀ w ∈ ws, kf w = k → vf w = I) :
    aGet (ws.map fun w => (kf w, vf w)) k = some I := by
  induction ws with
  | nil => simp at hex
  | cons w rest ih =>
    rw [List.map_cons, aGet_cons]
    by_cases hk : kf w = k
    · rw [if_pos hk, hall w (List.mem_cons_self w rest) hk]
    · rw [if_neg hk]
      obtain ⟨w', hw', hk'⟩ := hex
      rcases List.mem_cons.mp hw' with rfl | hmem
      · exact absurd hk' hk
      · exact ih ⟨w', hmem, hk'⟩ fun x hx h => hall x (List.mem_cons_of_mem w hx) h

theorem aGet_filterMap_eq_of_unique {α κ β : Type} [DecidableEq κ]
    (ws : List α) (kf : α → Option κ) (vf : α → β) (k : κ) (I : β)
    (hex : ∃ w ∈ ws, kf w = some k) (hall : ∀ w ∈ ws, kf w = some k → vf w = I) :
    aGet (ws.filterMap fun w => (kf w).map fun fk => (fk, vf w)) k = some I := by
  induction ws with
  | nil => simp at hex
  | cons w rest ih =>
    rw [List.filterMap_cons]
    have hnext : (∃ w' ∈ rest, kf w' = some k) →
        aGet (rest.filterMap fun w => (kf w).map fun fk => (fk, vf w)) k = some I :=
      fun he => ih he fun x hx h => hall x (List.mem_cons_of_mem w hx) h
    cases hfk : kf w with
    | none =>
      obtain ⟨w', hw', hk'⟩ := hex
      rcases List.mem_cons.mp hw' with rfl | hmem
      · rw [hfk] at hk'; exact Option.noConfusion hk'
      · exact hnext ⟨w', hmem, hk'⟩
    | some fk =>
      rw [Option.map_some', aGet_cons]
      by_cases hk : fk = k
      · subst hk
        rw [if_pos rfl, hall w (List.mem_cons_self w rest) hfk]
      · rw [if_neg hk]
        obtain ⟨w', hw', hk'⟩ := hex
        rcases List.mem_cons.mp hw' with rfl | hmem
        · rw [hfk] at hk'
          exact absurd (Option.some.inj hk') hk
        · exact hnext ⟨w', hmem, hk'⟩

/-- Fixture: an entity whose trip update carries raw id `"a_x"` and nothing
else. -/
def entA : FeedEntity :=
  { tripUpdate := some { trip := some { tripId := some (("a_x").toList) } } }

/-- Fixture: an entity whose trip update carries raw id `"b_x"`. -/
def entB : FeedEntity :=
  { tripUpdate := some { trip := some { tripId := some (("b_x").toList) } } }

/-- Counterexample to C3 as stated: `"a_x"` and `"b_x"` are distinct raw ids
that normalize to the same `"x"`, so after inserting both, the raw-id lookup
for the first entity and the normalized-id lookup resolve to different index
objects (last write wins in the normalized index). -/
theorem claim_c3_counterexample :
    (("a_x").toList, ({ trip := some { tripId := some (("a_x").toList) } } : FeedTripUpdate)) ∈
        writers [entA, entB] ∧
    aGet (buildCache 0 [entA, entB]).data (("a_x").toList) =
      some (buildIndex (("a_x").toList) { trip := some { tripId := some (("a_x").toList) } }) ∧
    aGet (buildCache 0 [entA, entB]).dataByNormalizedId (normalizeTripId (("a_x").toList)) =
      some (buildIndex (("b_x").toList) { trip := some { tripId := some (("b_x").toList) } }) ∧
    aGet (buildCache 0 [entA, entB]).data (("a_x").toList) ≠
      aGet (buildCache 0 [entA, entB]).dataByNormalizedId (normalizeTripId (("a_x").toList)) := by
  decide

/-- C3 (amended): for every trip update inserted into the cache under raw id
`tid`, provided every writer in the snapshot that collides with `tid` on the
raw key, on the normalized key, or on a defined fuzzy key carries the same
built index (in particular when the keys are collision-free — two writers
whose fuzzy keys are both undefined do not collide, since neither writes a
fuzzy entry), the raw-id, normalized-id and (when defined) fuzzy-key lookups
all resolve to the index built from that entity. -/
theorem claim_c3_cache_triple_index (now : Int) (entities : List FeedEntity)
    (tid : List Char) (tu : FeedTripUpdate)
    (hmem : (tid, tu) ∈ writers entities)
    (hraw : ∀ w ∈ writers entities, w.1 = tid → buildIndex w.1 w.2 = buildIndex tid tu)
    (hnorm : ∀ w ∈ writers entities, normalizeTripId w.1 = normalizeTripId tid →
      buildIndex w.1 w.2 = buildIndex tid tu)
    (hfuzzy : ∀ w ∈ writers entities, createFuzzyKey tid = createFuzzyKey w.1 →
      (createFuzzyKey tid).isSome → buildIndex w.1 w.2 = buildIndex tid tu) :
    aGet (buildCache now entities).data tid = some (buildIndex tid tu) ∧
    aGet (buildCache now entities).dataByNormalizedId (normalizeTripId tid) =
      some (buildIndex tid tu) ∧
    (∀ fk, createFuzzyKey tid = some fk →
      aGet (buildCache now entities).dataByFuzzyKey fk = some (buildIndex tid tu)) := by
  have hmem' : (tid, tu) ∈ (writers entities).reverse := List.mem_reverse.mpr hmem
  refine ⟨?_, ?_, ?_⟩
  · have hd : (buildCache now entities).data =
        ((writers entities).reverse.map fun w => (w.1, buildIndex w.1 w.2)) ++ [] := by
      rw [show (buildCache now entities).data = (entities.foldl insertEntity {}).data from rfl,
        build_data_eq entities {}]
    rw [hd, List.append_nil]
    exact aGet_map_eq_of_unique _ _ _ _ _ ⟨(tid, tu), hmem', rfl⟩
      fun w hw hk => hraw w (List.mem_reverse.mp hw) hk
  · have hd : (buildCache now entities).dataByNormalizedId =
        ((writers entities).reverse.map fun w => (normalizeTripId w.1, buildIndex w.1 w.2)) ++
          [] := by
      rw [show (buildCache now entities).dataByNormalizedId =
          (entities.foldl insertEntity {}).byNorm from rfl, build_byNorm_eq entities {}]
    rw [hd, List.append_nil]
    exact aGet_map_eq_of_unique _ _ _ _ _ ⟨(tid, tu), hmem', rfl⟩
      fun w hw hk => hnorm w (List.mem_reverse.mp hw) hk
  · intro fk hfk
    have hd : (buildCache now entities).dataByFuzzyKey =
        ((writers entities).reverse.filterMap fun w =>
          (createFuzzyKey w.1).map fun fk => (fk, buildIndex w.1 w.2)) ++ [] := by
      rw [show (buildCache now entities).dataByFuzzyKey =
          (entities.foldl insertEntity {}).byFuzzy from rfl, build_byFuzzy_eq entities {}]
    rw [hd, List.append_nil]
    exact aGet_filterMap_eq_of_unique _ _ _ _ _ ⟨(tid, tu), hmem', hfk⟩
      fun w hw hk => hfuzzy w (List.mem_reverse.mp hw) (by rw [hk, hfk])
        (by rw [hfk]; rfl)

/-- Fixture: an entity whose trip update carries the unparseable raw id
`"foo"` (no underscore: the normalized id is `"foo"` itself and the fuzzy
key is undefined). -/
def entFoo : FeedEntity :=
  { tripUpdate := some { trip := some { tripId := some (("foo").toList) } } }

/-- Fixture: an entity with the unparseable raw id `"bar"`. -/
def entBar : FeedEntity :=
  { tripUpdate := some { trip := some { tripId := some (("bar").toList) } } }

/-- Witness for C3 (amended) on a collision-free snapshot of two distinct
unparseable trip ids (both fuzzy keys undefined): the raw-id and
normalized-id lookups for `"foo"` resolve to its own index. -/
theorem claim_c3_cache_triple_index_witness :
    aGet (buildCache 0 [entFoo, entBar]).data (("foo").toList) =
      some (buildIndex (("foo").toList)
        { trip := some { tripId := some (("foo").toList) } }) ∧
    aGet (buildCache 0 [entFoo, entBar]).dataByNormalizedId
        (normalizeTripId (("foo").toList)) =
      some (buildIndex (("foo").toList)
        { trip := some { tripId := some (("foo").toList) } }) := by
  have h := claim_c3_cache_triple_index 0 [entFoo, entBar] (("foo").toList)
    { trip := some { tripId := some (("foo").toList) } }
    (by decide) (by decide) (by decide) (by decide)
  exact ⟨h.1, h.2.1⟩

/-! ## Lemmas about the closest-update locator -/

theorem getD_eq_get {α : Type} (l : List α) (d : α) {i : Nat} (h : i < l.length) :
    l.getD i d = l.get ⟨i, h⟩ := by
  rw [List.getD_eq_getElem?_getD, List.getElem?_eq_getElem h]
  exact (List.get_eq_getElem l ⟨i, h⟩).symm

theorem getD_mem {α : Type} (l : List α) (d : α) {i : Nat} (h : i < l.length) :
    l.getD i d ∈ l := by
  rw [getD_eq_get l d h]
  exact List.get_mem l i h

theorem pairwise_getD_mono {updates : List StopTimeUpdateWithEpoch}
    (hsorted : List.Pairwise (fun a b => a.departureEpoch ≤ b.departureEpoch) updates) :
    ∀ i j : Nat, i ≤ j → j < updates.length →
      (updates.getD i default).departureEpoch ≤ (updates.getD j default).departureEpoch := by
  intro i j hij hj
  rcases Nat.lt_or_ge i j with hlt | hge
  · have hi : i < updates.length := lt_trans hlt hj
    rw [getD_eq_get updates default hi, getD_eq_get updates default hj]
    exact List.pairwise_iff_get.mp hsorted ⟨i, hi⟩ ⟨j, hj⟩ hlt
  · have : i = j := le_antisymm hij hge
    subst this
    exact le_refl _

/-- Invariant of the tracked closest candidate: it is a member of the list
and its recorded delta is its actual distance to the target. -/
def BestInv (us : List StopTimeUpdateWithEpoch) (t : Int)
    (best : Option (StopTimeUpdateWithEpoch × Int)) : Prop :=
  ∀ u δ, best = some (u, δ) → u ∈ us ∧ δ = |u.departureEpoch - t|

theorem considerCandidate_spec (t : Int) (u : StopTimeUpdateWithEpoch)
    (best : Option (StopTimeUpdateWithEpoch × Int)) :
    ∃ w δ, considerCandidate t u best = some (w, δ) ∧
      δ ≤ |u.departureEpoch - t| ∧
      (∀ v d, best = some (v, d) → δ ≤ d) ∧
      ((w = u ∧ δ = |u.departureEpoch - t|) ∨ best = some (w, δ)) := by
  unfold considerCandidate
  cases best with
  | none =>
    exact ⟨u, |u.departureEpoch - t|, rfl, le_refl _,
      fun v d h => Option.noConfusion h, Or.inl ⟨rfl, rfl⟩⟩
  | some p =>
    obtain ⟨v, d⟩ := p
    by_cases hlt : |u.departureEpoch - t| < d
    · refine ⟨u, |u.departureEpoch - t|, by simp [hlt], le_refl _, ?_, Or.inl ⟨rfl, rfl⟩⟩
      intro v' d' h
      obtain ⟨-, rfl⟩ := Prod.mk.inj (Option.some.inj h)
      exact le_of_lt hlt
    · refine ⟨v, d, by simp [hlt], not_lt.mp hlt, ?_, Or.inr rfl⟩
      intro v' d' h
      obtain ⟨-, rfl⟩ := Prod.mk.inj (Option.some.inj h)
      exact le_refl _

theorem considerCandidate_bestInv {us : List StopTimeUpdateWithEpoch} {t : Int}
    {best : Option (StopTimeUpdateWithEpoch × Int)} (u : StopTimeUpdateWithEpoch)
    (hu : u ∈ us) (hbest : BestInv us t best) :
    BestInv us t (considerCandidate t u best) := by
  intro w δ hw
  obtain ⟨w', δ', heq, -, -, hcases⟩ := considerCandidate_spec t u best
  rw [heq] at hw
  obtain ⟨he1, he2⟩ := Prod.mk.inj (Option.some.inj hw)
  rcases hcases with ⟨hwu, hδ⟩ | hprev
  · rw [← he1, ← he2, hwu, hδ]
    exact ⟨hu, rfl⟩
  · rw [← he1, ← he2]
    exact hbest w' δ' hprev

theorem bsLoop_spec (us : List StopTimeUpdateWithEpoch) (t : Int)
    (hmono : ∀ i j : Nat, i ≤ j → j < us.length →
      (us.getD i default).departureEpoch ≤ (us.getD j default).departureEpoch) :
    ∀ fuel : Nat, ∀ left right : Int, ∀ best : Option (StopTimeUpdateWithEpoch × Int),
      right + 1 - left ≤ (fuel : Int) →
      0 ≤ left → left ≤ right + 1 → right < (us.length : Int) →
      (∀ i : Nat, (i : Int) < left → (us.getD i default).departureEpoch < t) →
      (∀ i : Nat, right < (i : Int) → i < us.length →
        t ≤ (us.getD i default).departureEpoch) →
      BestInv us t best →
      0 ≤ (bsLoop us t fuel left right best).1 ∧
      (bsLoop us t fuel left right best).1 ≤ (us.length : Int) ∧
      (∀ i : Nat, (i : Int) < (bsLoop us t fuel left right best).1 →
        (us.getD i default).departureEpoch < t) ∧
      (∀ i : Nat, (bsLoop us t fuel left right best).1 ≤ (i : Int) → i < us.length →
        t ≤ (us.getD i default).departureEpoch) ∧
      BestInv us t (bsLoop us t fuel left right best).2 := by
  intro fuel
  induction fuel with
  | zero =>
    intro left right best hfuel hl hlr hr hlo hhi hbest
    have hred : bsLoop us t 0 left right best = (left, best) := rfl
    simp only [hred]
    refine ⟨by omega, by omega, hlo, ?_, hbest⟩
    intro i hi hilen
    exact hhi i (by omega) hilen
  | succ n ih =>
    intro left right best hfuel hl hlr hr hlo hhi hbest
    by_cases hcond : left ≤ right
    · have hm1 : left ≤ (left + right) / 2 := by omega
      have hm2 : (left + right) / 2 ≤ right := by omega
      have hmidlen : ((left + right) / 2).toNat < us.length := by omega
      have humem : us.getD ((left + right) / 2).toNat default ∈ us :=
        getD_mem us default hmidlen
      have hbest' : BestInv us t
          (considerCandidate t (us.getD ((left + right) / 2).toNat default) best) :=
        considerCandidate_bestInv _ humem hbest
      by_cases hb : (us.getD ((left + right) / 2).toNat default).departureEpoch < t
      · have hred : bsLoop us t (n + 1) left right best =
            bsLoop us t n ((left + right) / 2 + 1) right
              (considerCandidate t (us.getD ((left + right) / 2).toNat default) best) := by
          rw [bsLoop]
          simp only [if_pos hcond, if_pos hb]
        rw [hred]
        refine ih ((left + right) / 2 + 1) right _ (by omega) (by omega) (by omega) hr ?_ hhi
          hbest'
        intro i hi
        rcases lt_or_ge (i : Int) left with hil | hil
        · exact hlo i hil
        · calc (us.getD i default).departureEpoch
              ≤ (us.getD ((left + right) / 2).toNat default).departureEpoch :=
                hmono i ((left + right) / 2).toNat (by omega) hmidlen
            _ < t := hb
      · have hred : bsLoop us t (n + 1) left right best =
            bsLoop us t n left ((left + right) / 2 - 1)
              (considerCandidate t (us.getD ((left + right) / 2).toNat default) best) := by
          rw [bsLoop]
          simp only [if_pos hcond, if_neg hb]
        rw [hred]
        refine ih left ((left + right) / 2 - 1) _ (by omega) hl (by omega) (by omega) hlo ?_
          hbest'
        intro i hi hilen
        calc t ≤ (us.getD ((left + right) / 2).toNat default).departureEpoch := not_lt.mp hb
          _ ≤ (us.getD i default).departureEpoch :=
              hmono ((left + right) / 2).toNat i (by omega) hilen
    · have hred : bsLoop us t (n + 1) left right best = (left, best) := by
        rw [bsLoop]
        simp only [if_neg hcond]
      simp only [hred]
      refine ⟨by omega, by omega, hlo, ?_, hbest⟩
      intro i hi hilen
      exact hhi i (by omega) hilen

theorem findClosestRtUpdate_correct (cache : RtCache) (routeId stopId : List Char)
    (targetEpoch maxDeltaSeconds : Int) (updates : List StopTimeUpdateWithEpoch)
    (hget : aGet cache.dataByRouteStop (createRouteStopKey routeId stopId) = some updates)
    (hne : updates ≠ [])
    (hsorted : List.Pairwise (fun a b => a.departureEpoch ≤ b.departureEpoch) updates) :
    (∃ u ∈ updates,
      findClosestRtUpdate cache routeId stopId targetEpoch maxDeltaSeconds =
        some u.toStopTimeUpdate ∧
      |u.departureEpoch - targetEpoch| ≤ maxDeltaSeconds ∧
      ∀ v ∈ updates, |u.departureEpoch - targetEpoch| ≤ |v.departureEpoch - targetEpoch|) ∨
    (findClosestRtUpdate cache routeId stopId targetEpoch maxDeltaSeconds = none ∧
      ∀ v ∈ updates, maxDeltaSeconds < |v.departureEpoch - targetEpoch|) := by
  have hlen : 0 < updates.length := List.length_pos.mpr hne
  have hne0 : ¬ (updates.length = 0) := by omega
  have hmono := pairwise_getD_mono hsorted
  have hspec := bsLoop_spec updates targetEpoch hmono updates.length 0
    ((updates.length : Int) - 1) none (by omega) (by omega) (by omega) (by omega)
    (fun i hi => absurd hi (by omega))
    (fun i hi hilen => by omega)
    (fun u δ h => Option.noConfusion h)
  rcases hbs : bsLoop updates targetEpoch updates.length 0 ((updates.length : Int) - 1) none
    with ⟨l, b⟩
  rw [hbs] at hspec
  simp only [] at hspec
  obtain ⟨hl0, hl1, hlo, hhi, hbinv⟩ := hspec
  have hfind : findClosestRtUpdate cache routeId stopId targetEpoch maxDeltaSeconds =
      (match (if 0 < l then
          considerCandidate targetEpoch (updates.getD (l - 1).toNat default)
            (if l < (updates.length : Int) then
              considerCandidate targetEpoch (updates.getD l.toNat default) b
            else b)
        else
          (if l < (updates.length : Int) then
            considerCandidate targetEpoch (updates.getD l.toNat default) b
          else b)) with
       | some (u, d) => if d ≤ maxDeltaSeconds then some u.toStopTimeUpdate else none
       | none => none) := by
    rw [findClosestRtUpdate, hget]
    simp only [if_neg hne0, hbs]
  -- existence, membership, exactness and minimality of the final candidate
  have hkey : ∃ u δ,
      (if 0 < l then
        considerCandidate targetEpoch (updates.getD (l - 1).toNat default)
          (if l < (updates.length : Int) then
            considerCandidate targetEpoch (updates.getD l.toNat default) b
          else b)
      else
        (if l < (updates.length : Int) then
          considerCandidate targetEpoch (updates.getD l.toNat default) b
        else b)) = some (u, δ) ∧
      u ∈ updates ∧ δ = |u.departureEpoch - targetEpoch| ∧
      (∀ v ∈ updates, δ ≤ |v.departureEpoch - targetEpoch|) := by
    by_cases hlpos : 0 < l
    · by_cases hllen : l < (updates.length : Int)
      · -- both neighbors exist
        obtain ⟨w1, δ1, heq1, hle1, -, -⟩ :=
          considerCandidate_spec targetEpoch (updates.getD l.toNat default) b
        have hbinv1 : BestInv updates targetEpoch
            (considerCandidate targetEpoch (updates.getD l.toNat default) b) :=
          considerCandidate_bestInv _ (getD_mem updates default (by omega)) hbinv
        obtain ⟨w, δ, heq, hle2, hmo2, -⟩ :=
          considerCandidate_spec targetEpoch (updates.getD (l - 1).toNat default)
            (considerCandidate targetEpoch (updates.getD l.toNat default) b)
        have hbinv2 : BestInv updates targetEpoch
            (considerCandidate targetEpoch (updates.getD (l - 1).toNat default)
              (considerCandidate targetEpoch (updates.getD l.toNat default) b)) :=
          considerCandidate_bestInv _ (getD_mem updates default (by omega)) hbinv1
        obtain ⟨hwmem, hwδ⟩ := hbinv2 w δ heq
        refine ⟨w, δ, by rw [if_pos hlpos, if_pos hllen, heq], hwmem, hwδ, ?_⟩
        have hF1 : δ ≤ |(updates.getD l.toNat default).departureEpoch - targetEpoch| :=
          le_trans (hmo2 w1 δ1 heq1) hle1
        have hF2 : δ ≤ |(updates.getD (l - 1).toNat default).departureEpoch - targetEpoch| :=
          hle2
        intro v hv
        obtain ⟨⟨i, hi⟩, rfl⟩ := List.mem_iff_get.mp hv
        rw [← getD_eq_get updates default hi]
        rcases lt_or_ge (i : Int) l with hil | hil
        · have hjlt : (updates.getD (l - 1).toNat default).departureEpoch < targetEpoch :=
            hlo (l - 1).toNat (by omega)
          have hilt : (updates.getD i default).departureEpoch < targetEpoch :=
            hlo i (by omega)
          have hm := hmono i (l - 1).toNat (by omega) (by omega)
          rw [abs_of_nonpos (by omega), neg_sub] at hF2
          rw [abs_of_nonpos (by omega), neg_sub]
          omega
        · have hjge : targetEpoch ≤ (updates.getD l.toNat default).departureEpoch :=
            hhi l.toNat (by omega) (by omega)
          have hige : targetEpoch ≤ (updates.getD i default).departureEpoch :=
            hhi i (by omega) hi
          have hm := hmono l.toNat i (by omega) hi
          rw [abs_of_nonneg (by omega)] at hF1
          rw [abs_of_nonneg (by omega)]
          omega
      · -- only the left neighbor exists: l = updates.length
        obtain ⟨w, δ, heq, hle2, -, -⟩ :=
          considerCandidate_spec targetEpoch (updates.getD (l - 1).toNat default) b
        have hbinv2 : BestInv updates targetEpoch
            (considerCandidate targetEpoch (updates.getD (l - 1).toNat default) b) :=
          considerCandidate_bestInv _ (getD_mem updates default (by omega)) hbinv
        obtain ⟨hwmem, hwδ⟩ := hbinv2 w δ heq
        refine ⟨w, δ, by rw [if_pos hlpos, if_neg hllen, heq], hwmem, hwδ, ?_⟩
        intro v hv
        obtain ⟨⟨i, hi⟩, rfl⟩ := List.mem_iff_get.mp hv
        rw [← getD_eq_get updates default hi]
        have hjlt : (updates.getD (l - 1).toNat default).departureEpoch < targetEpoch :=
          hlo (l - 1).toNat (by omega)
        have hilt : (updates.getD i default).departureEpoch < targetEpoch :=
          hlo i (by omega)
        have hm := hmono i (l - 1).toNat (by omega) (by omega)
        rw [abs_of_nonpos (by omega), neg_sub] at hle2
        rw [abs_of_nonpos (by omega), neg_sub]
        omega
    · -- l = 0: only the right neighbor exists
      have hllen : l < (updates.length : Int) := by omega
      obtain ⟨w, δ, heq, hle1, -, -⟩ :=
        considerCandidate_spec targetEpoch (updates.getD l.toNat default) b
      have hbinv1 : BestInv updates targetEpoch
          (considerCandidate targetEpoch (updates.getD l.toNat default) b) :=
        considerCandidate_bestInv _ (getD_mem updates default (by omega)) hbinv
      obtain ⟨hwmem, hwδ⟩ := hbinv1 w δ heq
      refine ⟨w, δ, by rw [if_neg hlpos, if_pos hllen, heq], hwmem, hwδ, ?_⟩
      intro v hv
      obtain ⟨⟨i, hi⟩, rfl⟩ := List.mem_iff_get.mp hv
      rw [← getD_eq_get updates default hi]
      have hjge : targetEpoch ≤ (updates.getD l.toNat default).departureEpoch :=
        hhi l.toNat (by omega) (by omega)
      have hige : targetEpoch ≤ (updates.getD i default).departureEpoch :=
        hhi i (by omega) hi
      have hm := hmono l.toNat i (by omega) hi
      rw [abs_of_nonneg (by omega)] at hle1
      rw [abs_of_nonneg (by omega)]
      omega
  obtain ⟨u, δ, heq2, humem, hδ, hmin⟩ := hkey
  rw [heq2] at hfind
  by_cases hgate : δ ≤ maxDeltaSeconds
  · left
    refine ⟨u, humem, ?_, by rw [← hδ]; exact hgate, fun v hv => by rw [← hδ]; exact hmin v hv⟩
    rw [hfind]
    simp only [if_pos hgate]
  · right
    constructor
    · rw [hfind]
      simp only [if_neg hgate]
    · intro v hv
      have := hmin v hv
      omega

/-- C4: for a present, non-empty, epoch-sorted `(route, stop)` list,
`findClosestRtUpdate` returns an update at minimal distance from the target
when that distance is within `maxDeltaSeconds` and nothing otherwise; an
absent or empty list yields nothing; and querying at a member's own epoch
with zero tolerance returns a member with exactly that epoch. -/
theorem claim_c4_find_closest (cache : RtCache) (routeId stopId : List Char) :
    (∀ targetEpoch maxDeltaSeconds : Int,
      aGet cache.dataByRouteStop (createRouteStopKey routeId stopId) = none →
      findClosestRtUpdate cache routeId stopId targetEpoch maxDeltaSeconds = none) ∧
    (∀ targetEpoch maxDeltaSeconds : Int,
      aGet cache.dataByRouteStop (createRouteStopKey routeId stopId) = some [] →
      findClosestRtUpdate cache routeId stopId targetEpoch maxDeltaSeconds = none) ∧
    (∀ (targetEpoch maxDeltaSeconds : Int) (updates : List StopTimeUpdateWithEpoch),
      aGet cache.dataByRouteStop (createRouteStopKey routeId stopId) = some updates →
      updates ≠ [] →
      List.Pairwise (fun a b => a.departureEpoch ≤ b.departureEpoch) updates →
      ((∃ u ∈ updates,
          findClosestRtUpdate cache routeId stopId targetEpoch maxDeltaSeconds =
            some u.toStopTimeUpdate ∧
          |u.departureEpoch - targetEpoch| ≤ maxDeltaSeconds ∧
          ∀ v ∈ updates,
            |u.departureEpoch - targetEpoch| ≤ |v.departureEpoch - targetEpoch|) ∨
        (findClosestRtUpdate cache routeId stopId targetEpoch maxDeltaSeconds = none ∧
          ∀ v ∈ updates, maxDeltaSeconds < |v.departureEpoch - targetEpoch|))) ∧
    (∀ (updates : List StopTimeUpdateWithEpoch) (w : StopTimeUpdateWithEpoch),
      aGet cache.dataByRouteStop (createRouteStopKey routeId stopId) = some updates →
      List.Pairwise (fun a b => a.departureEpoch ≤ b.departureEpoch) updates →
      w ∈ updates →
      ∃ u ∈ updates,
        findClosestRtUpdate cache routeId stopId w.departureEpoch 0 =
          some u.toStopTimeUpdate ∧
        u.departureEpoch = w.departureEpoch) := by
  refine ⟨?_, ?_, ?_, ?_⟩
  · intro targetEpoch maxDeltaSeconds h
    rw [findClosestRtUpdate, h]
  · intro targetEpoch maxDeltaSeconds h
    rw [findClosestRtUpdate, h]
    rfl
  · intro targetEpoch maxDeltaSeconds updates hget hne hsorted
    exact findClosestRtUpdate_correct cache routeId stopId targetEpoch maxDeltaSeconds updates
      hget hne hsorted
  · intro updates w hget hsorted hw
    rcases findClosestRtUpdate_correct cache routeId stopId w.departureEpoch 0 updates hget
        (List.ne_nil_of_mem hw) hsorted with ⟨u, humem, heq, habs, -⟩ | ⟨-, hall⟩
    · refine ⟨u, humem, heq, ?_⟩
      have h0 : |u.departureEpoch - w.departureEpoch| = 0 :=
        le_antisymm habs (abs_nonneg _)
      have := abs_eq_zero.mp h0
      omega
    · have := hall w hw
      simp at this

/-- Fixture: three `(route, stop)` updates sorted by epoch. -/
def usC4 : List StopTimeUpdateWithEpoch :=
  [{ departureTime := some 100, departureEpoch := 100 },
   { departureTime := some 200, departureEpoch := 200 },
   { departureTime := some 260, departureEpoch := 260 }]

/-- Fixture cache exposing `usC4` for route `"R"`, stop `"S"`. -/
def cacheC4 : RtCache :=
  { fetchedAt := 0, entityCount := 1, tripUpdatesCount := 1,
    data := [], dataByNormalizedId := [], dataByFuzzyKey := [], dataByRouteStopTime := [],
    dataByRouteStop := [(createRouteStopKey (("R").toList) (("S").toList), usC4)] }

/-- Witness for C4 on `cacheC4`: the minimal-delta disjunction at target 205
with tolerance 900, and the exact-member query at epoch 100 with zero
tolerance. -/
theorem claim_c4_find_closest_witness :
    ((∃ u ∈ usC4,
        findClosestRtUpdate cacheC4 (("R").toList) (("S").toList) 205 900 =
          some u.toStopTimeUpdate ∧
        |u.departureEpoch - 205| ≤ 900 ∧
        ∀ v ∈ usC4, |u.departureEpoch - 205| ≤ |v.departureEpoch - 205|) ∨
      (findClosestRtUpdate cacheC4 (("R").toList) (("S").toList) 205 900 = none ∧
        ∀ v ∈ usC4, 900 < |v.departureEpoch - 205|)) ∧
    (∃ u ∈ usC4,
      findClosestRtUpdate cacheC4 (("R").toList) (("S").toList) 100 0 =
        some u.toStopTimeUpdate ∧
      u.departureEpoch = 100) :=
  ⟨(claim_c4_find_closest cacheC4 (("R").toList) (("S").toList)).2.2.1 205 900 usC4
      (by decide) (by decide) (by decide),
    (claim_c4_find_closest cacheC4 (("R").toList) (("S").toList)).2.2.2 usC4
      { departureTime := some 100, departureEpoch := 100 }
      (by decide) (by decide) (by decide)⟩
